import Mathlib

/-!
Verification of the bp2bst Android.bp-to-BuildStream converter
(`src/tools/bp2bst`).  The Python sources are shallowly embedded below:

* `Expression`, `Module`, `File` mirror `ast.py` (a `Property` is a
  name/value pair; Python dataclass lists become Lean lists);
* `eval` mirrors `evaluator.Evaluator.evaluate`.  Python's recursion
  limit (a `RecursionError` escapes `evaluate` exactly like an
  `EvalError` and is caught by the same `except` clause in
  `convert_file`) is modelled by a `fuel` argument consumed at each
  recursive call; `.error .outOfFuel` corresponds to Python's
  `RecursionError`;
* `mergeValues`, `mergeProperties`, `collectGo`, `resolve` mirror
  `defaults.DefaultsResolver`.  Python's insertion-ordered `dict` is an
  association list with unique keys (`dictSet`, `mergeStep` keep the
  first occurrence's position, as `dict` assignment does).  The
  recursive `_collect_defaults` together with its `visited` set is
  written as a single worklist recursion `collectGo`: `.visit n` is the
  call `_collect_defaults(n, …)` and `.emit m` is the trailing
  `result.append(defaults_module)`; termination is by the number of
  registry keys not yet visited, exactly the argument that makes the
  Python visited set terminate;
* the lexer state of `parser.Lexer` keeps the not-yet-consumed text as
  a list (Python keeps an index `pos` into the fixed text; the suffix
  from `pos` is that list) plus the 1-based `line`/`col` counters kept
  by `_advance`.  Python's `str.isalpha`/`isdigit`/`isalnum` are
  Unicode-aware; `pyIsAlpha`/`pyIsDigit`/`pyIsAlnum` reproduce them
  exactly on every code point below U+0100 (the Unicode Character
  Database values for Latin-1), and the lexer theorems quantify over
  inputs in that range; above U+00FF the model returns `false`, a
  documented domain bound;
* the handlers of `module_types.py`, `Converter.convert_file` and
  `Converter._format_bst` are embedded below them.  `convert_file`
  derives `source_dir` from the input path with `os.path`; the embedded
  `convertFile` takes that directory as the parameter `sourceDir`.
-/

namespace Bp2bst

/-- Expression nodes of `ast.py`.  A map's `properties` list of
`Property(name, value)` dataclasses is a list of name/value pairs. -/
inductive Expression where
  | str (value : String)
  | bool (value : Bool)
  | int (value : Int)
  | list (values : List Expression)
  | map (properties : List (String × Expression))
  | var (name : String)
  | op (left : Expression) (o : String) (right : Expression)
  | select (funcName : String) (funcArgs : List String)
      (cases : List (List String × Expression))

/-- First value bound to a key in an association list; mirrors both
`Module.get` and `MapExpr.get` (first matching property wins) and
Python `dict` lookup on unique-key lists. -/
def lookupA {α : Type} : List (String × α) → String → Option α
  | [], _ => none
  | (k, v) :: rest, n => if k = n then some v else lookupA rest n

/-- Python `dict` item assignment `d[n] = v`: replace in place keeping
the key's position, else append at the end. -/
def dictSet {α : Type} : List (String × α) → String → α → List (String × α)
  | [], n, v => [(n, v)]
  | (k, w) :: rest, n, v =>
      if k = n then (k, v) :: rest else (k, w) :: dictSet rest n v

/-- `Module` of `ast.py`. -/
structure Module where
  type : String
  properties : List (String × Expression)

/-- `Module.name`: value of the first `"name"` property whose value is
a `StringExpr` (the Python loop skips a non-string `"name"` binding and
keeps looking). -/
def moduleName (m : Module) : Option String :=
  m.properties.findSome? fun p =>
    if p.1 = "name" then
      match p.2 with
      | .str s => some s
      | _ => none
    else none

/-- `Assignment` of `ast.py`. -/
structure Assignment where
  name : String
  value : Expression
  assigner : String

/-- A top-level definition: `Assignment | Module`. -/
inductive Defn where
  | assignment (a : Assignment)
  | mod (m : Module)

/-- `File` of `ast.py`. -/
structure File where
  name : String
  defs : List Defn

/-- `File.modules`. -/
def File.modules (f : File) : List Module :=
  f.defs.filterMap fun d =>
    match d with
    | .mod m => some m
    | .assignment _ => none

/-- `evaluator.extract_string`. -/
def extractString : Expression → Option String
  | .str s => some s
  | _ => none

/-- Loop body of `evaluator.extract_string_list`: append the value of
every `StringExpr` element, in order, skipping everything else. -/
def extractStringGo : List Expression → List String
  | [] => []
  | v :: rest =>
      match extractString v with
      | some s => s :: extractStringGo rest
      | none => extractStringGo rest

/-- `evaluator.extract_string_list`. -/
def extractStringList : Expression → List String
  | .list vs => extractStringGo vs
  | _ => []

/-- `evaluator.extract_bool`. -/
def extractBool : Expression → Option Bool
  | .bool b => some b
  | _ => none

/-- Errors escaping `Evaluator.evaluate`: `EvalError` for an undefined
variable, or Python's `RecursionError` when the recursion budget is
exhausted. -/
inductive EvalErr where
  | undefinedVar (name : String)
  | outOfFuel
deriving DecidableEq

/-- The message of the exception, as interpolated by `str(e)`. -/
def evalErrStr : EvalErr → String
  | .undefinedVar n => "Undefined variable: " ++ n
  | .outOfFuel => "maximum recursion depth exceeded"

/-- Short-circuiting map: the element loops inside
`Evaluator.evaluate` (and the comprehension in `evaluate_module`),
where a raised exception propagates out of the loop. -/
def mapExcept {α β : Type} (f : α → Except EvalErr β) : List α → Except EvalErr (List β)
  | [] => .ok []
  | a :: rest =>
      match f a with
      | .error e => .error e
      | .ok b =>
          match mapExcept f rest with
          | .error e => .error e
          | .ok bs => .ok (b :: bs)

/-- `Evaluator.evaluate`.  `fuel` models Python's recursion-depth
limit: each recursive `evaluate` frame consumes one unit. -/
def eval : Nat → List (String × Expression) → Expression → Except EvalErr Expression
  | 0, _, _ => .error .outOfFuel
  | fuel + 1, vars, e =>
      match e with
      | .str s => .ok (.str s)
      | .bool b => .ok (.bool b)
      | .int i => .ok (.int i)
      | .var n =>
          match lookupA vars n with
          | none => .error (.undefinedVar n)
          | some bound => eval fuel vars bound
      | .op l o r =>
          match eval fuel vars l with
          | .error err => .error err
          | .ok le =>
              match eval fuel vars r with
              | .error err => .error err
              | .ok re =>
                  if o = "+" then
                    match le, re with
                    | .list xs, .list ys => .ok (.list (xs ++ ys))
                    | .str a, .str b => .ok (.str (a ++ b))
                    | _, _ => .ok (.op le o re)
                  else .ok (.op le o re)
      | .list vs =>
          match mapExcept (eval fuel vars) vs with
          | .error err => .error err
          | .ok vs' => .ok (.list vs')
      | .map ps =>
          match mapExcept (fun p => (eval fuel vars p.2).map fun v => (p.1, v)) ps with
          | .error err => .error err
          | .ok ps' => .ok (.map ps')
      | .select f a c => .ok (.select f a c)

/-- `Evaluator.evaluate_module`. -/
def evalModule (fuel : Nat) (vars : List (String × Expression)) (m : Module) :
    Except EvalErr Module :=
  match mapExcept (fun p => (eval fuel vars p.2).map fun v => (p.1, v)) m.properties with
  | .error e => .error e
  | .ok ps => .ok ⟨m.type, ps⟩

/-- `Evaluator.add_file_variables`: register every top-level
assignment, in source order; `+=` wraps an existing binding in an
`OperatorExpr`. -/
def addFileVariables (vars : List (String × Expression)) (f : File) :
    List (String × Expression) :=
  f.defs.foldl
    (fun vs d =>
      match d with
      | .assignment a =>
          if a.assigner = "+=" then
            match lookupA vs a.name with
            | some existing => dictSet vs a.name (.op existing "+" a.value)
            | none => dictSet vs a.name a.value
          else dictSet vs a.name a.value
      | .mod _ => vs)
    vars

/-- Python dict comprehension `{p.name: p.value for p in properties}`:
first occurrence fixes the position, a later duplicate overwrites the
value in place. -/
def dictProps (ps : List (String × Expression)) : List (String × Expression) :=
  ps.foldl (fun t p => dictSet t p.1 p.2) []

mutual

/-- `DefaultsResolver._merge_values`: list concatenation, recursive map
merge, otherwise the overlay wins. -/
def mergeValues : Expression → Expression → Expression
  | .list xs, .list ys => .list (xs ++ ys)
  | .map ps, .map qs => .map (mergeOverlay (dictProps ps) qs)
  | _, overlay => overlay
termination_by _ o => (sizeOf o, 0)

/-- The overlay loop of the map case of `_merge_values`. -/
def mergeOverlay (target : List (String × Expression)) :
    List (String × Expression) → List (String × Expression)
  | [] => target
  | (n, v) :: rest => mergeOverlay (mergeStep target n v) rest
termination_by l => (sizeOf l, 0)

/-- One dict update `target[name] = _merge_values(target[name], v)` /
`target[name] = v`: merge into the existing binding keeping its
position, else append. -/
def mergeStep : List (String × Expression) → String → Expression → List (String × Expression)
  | [], n, v => [(n, v)]
  | (k, w) :: rest, n, v =>
      if k = n then (k, mergeValues w v) :: rest else (k, w) :: mergeStep rest n v
termination_by t _ v => (sizeOf v, sizeOf t + 1)

end

/-- `DefaultsResolver._merge_properties`: fold the incoming properties
into the accumulator dict, skipping `"name"` and `"defaults"`. -/
def mergeProperties (target : List (String × Expression))
    (props : List (String × Expression)) : List (String × Expression) :=
  props.foldl
    (fun t p =>
      if p.1 = "name" ∨ p.1 = "defaults" then t
      else mergeStep t p.1 p.2)
    target

/-- Worklist items for the defaults traversal: `.visit n` is a call
`_collect_defaults(n, result, visited)`, `.emit m` is the trailing
`result.append(defaults_module)` of such a call. -/
inductive CItem where
  | visit (name : String)
  | emit (m : Module)

/-- The two mutable arguments of `_collect_defaults`. -/
structure CState where
  result : List Module
  visited : List String

/-- Keys of the defaults registry. -/
def regKeys (reg : List (String × Module)) : List String :=
  reg.map Prod.fst

/-- Number of registry keys not yet in the visited set: the quantity
that shrinks on every productive `_collect_defaults` call. -/
def unvisitedCount (reg : List (String × Module)) (visited : List String) : Nat :=
  (regKeys reg).countP fun k => !visited.contains k

theorem lookupA_some_mem {α : Type} {reg : List (String × α)} {n : String} {v : α}
    (h : lookupA reg n = some v) : n ∈ reg.map Prod.fst := by
  induction reg with
  | nil => simp [lookupA] at h
  | cons hd tl ih =>
      rw [lookupA] at h
      by_cases hk : hd.1 = n
      · simp [hk]
      · simp only [if_neg hk] at h
        simp [ih h]

theorem lookupA_none_not_mem {α : Type} {reg : List (String × α)} {n : String}
    (h : lookupA reg n = none) : n ∉ reg.map Prod.fst := by
  induction reg with
  | nil => simp
  | cons hd tl ih =>
      rw [lookupA] at h
      by_cases hk : hd.1 = n
      · simp [hk] at h
      · simp only [if_neg hk] at h
        simp only [List.map_cons, List.mem_cons, not_or]
        exact ⟨fun hh => hk hh.symm, ih h⟩

theorem countP_notContains_le (l v : List String) (n : String) :
    (l.countP fun k => !(n :: v).contains k) ≤
      l.countP fun k => !v.contains k := by
  apply List.countP_mono_left
  intro a _ ha
  simp only [List.contains_cons, Bool.not_or, Bool.and_eq_true] at ha
  exact ha.2

theorem countP_notContains_lt (l v : List String) (n : String)
    (hn : n ∈ l) (hv : v.contains n = false) :
    (l.countP fun k => !(n :: v).contains k) <
      l.countP fun k => !v.contains k := by
  induction l with
  | nil => simp at hn
  | cons a tl ih =>
      rw [List.countP_cons, List.countP_cons]
      by_cases han : a = n
      · have h1 : (!(n :: v).contains a) = false := by
          rw [han]
          simp [List.contains_cons]
        have h2 : (!v.contains a) = true := by
          rw [han, hv]
          rfl
        rw [h1, h2]
        have := countP_notContains_le tl v n
        simp only [Bool.false_eq_true, if_false, if_true]
        omega
      · have hbeq : (a == n) = false := by simp [han]
        have heq : (!(n :: v).contains a) = (!v.contains a) := by
          simp only [List.contains_cons, hbeq, Bool.false_or]
        rw [heq]
        have hn' : n ∈ tl := by
          rcases List.mem_cons.mp hn with h | h
          · exact absurd h.symm han
          · exact h
        have := ih hn'
        by_cases hva : (!v.contains a) = true
        · rw [hva]
          omega
        · rw [Bool.not_eq_true] at hva
          rw [hva]
          omega

theorem countP_notContains_eq (l v : List String) (n : String)
    (hn : n ∉ l) :
    (l.countP fun k => !(n :: v).contains k) =
      l.countP fun k => !v.contains k := by
  induction l with
  | nil => simp
  | cons a tl ih =>
      rw [List.countP_cons, List.countP_cons]
      have han : a ≠ n := fun h => hn (h ▸ List.mem_cons_self a tl)
      have hbeq : (a == n) = false := by simp [han]
      have heq : (!(n :: v).contains a) = (!v.contains a) := by
        simp only [List.contains_cons, hbeq, Bool.false_or]
      have hn' : n ∉ tl := fun h => hn (List.mem_cons_of_mem a h)
      rw [heq, ih hn']

theorem unvisitedCount_cons_lt {reg : List (String × Module)} {visited : List String}
    {n : String} {dm : Module} (hfound : lookupA reg n = some dm)
    (hnv : visited.contains n = false) :
    unvisitedCount reg (n :: visited) < unvisitedCount reg visited :=
  countP_notContains_lt _ _ _ (lookupA_some_mem hfound) hnv

theorem unvisitedCount_cons_eq {reg : List (String × Module)} {visited : List String}
    {n : String} (hnone : lookupA reg n = none) :
    unvisitedCount reg (n :: visited) = unvisitedCount reg visited :=
  countP_notContains_eq _ _ _ (lookupA_none_not_mem hnone)

/-- `DefaultsResolver._collect_defaults`, run on a worklist.  A
`.visit n` step checks the visited set, marks `n` visited, resolves its
nested defaults first (pushing their names, then the `.emit` of the
module itself); `.emit` appends to the result list.  Termination: every
productive `.visit` removes one registry key from the unvisited pool,
which is the argument making the Python visited set terminate. -/
def collectGo (reg : List (String × Module)) : List CItem → CState → CState
  | [], st => st
  | .emit m :: rest, st => collectGo reg rest ⟨st.result ++ [m], st.visited⟩
  | .visit n :: rest, st =>
      if hv : st.visited.contains n then collectGo reg rest st
      else
        match hl : lookupA reg n with
        | none => collectGo reg rest ⟨st.result, n :: st.visited⟩
        | some dm =>
            let nested :=
              match lookupA dm.properties "defaults" with
              | some e => extractStringList e
              | none => []
            collectGo reg (nested.map CItem.visit ++ CItem.emit dm :: rest)
              ⟨st.result, n :: st.visited⟩
termination_by items st => (unvisitedCount reg st.visited, items.length)
decreasing_by
  · apply Prod.Lex.right
    simp
  · apply Prod.Lex.right
    simp
  · rw [unvisitedCount_cons_eq hl]
    apply Prod.Lex.right
    simp
  · apply Prod.Lex.left
    exact unvisitedCount_cons_lt hl (by simpa using hv)

/-- `DefaultsResolver.resolve`. -/
def resolve (reg : List (String × Module)) (m : Module) : Module :=
  match lookupA m.properties "defaults" with
  | none => m
  | some dp =>
      let defaultsNames := extractStringList dp
      if defaultsNames.isEmpty then m
      else
        let st := collectGo reg (defaultsNames.map CItem.visit) ⟨[], []⟩
        let merged := st.result.foldl (fun acc dm => mergeProperties acc dm.properties) []
        let finalProps :=
          mergeProperties merged (m.properties.filter fun p => p.1 ≠ "defaults")
        if finalProps.any (fun p => p.1 = "name") then ⟨m.type, finalProps⟩
        else
          match lookupA m.properties "name" with
          | some nv => ⟨m.type, ("name", nv) :: finalProps⟩
          | none => ⟨m.type, finalProps⟩

/-- `DefaultsResolver.register_defaults`: record every `cc_defaults`
module under its (string, non-empty) name.  `if name:` in Python also
rejects the empty string. -/
def registerDefaults (reg : List (String × Module)) (mods : List Module) :
    List (String × Module) :=
  mods.foldl
    (fun r m =>
      if m.type = "cc_defaults" then
        match moduleName m with
        | some n => if n = "" then r else dictSet r n m
        | none => r
      else r)
    reg

/-- `" ".join(...)`. -/
def joinSpace (l : List String) : String :=
  String.intercalate " " l

/-- Ascending insertion used to model Python `sorted`. -/
def insertSorted (s : String) : List String → List String
  | [] => [s]
  | a :: rest => if s ≤ a then s :: a :: rest else a :: insertSorted s rest

/-- Python `sorted(set(l))`: the ascending enumeration of the distinct
values of `l` (string order is byte order on ASCII, which is code-point
order, matching Python). -/
def sortedSet (l : List String) : List String :=
  l.dedup.foldr insertSorted []

/-- An element descriptor (the `content` dict built by the handlers):
each optional block is present exactly when the Python dict has the
key. -/
structure Element where
  kind : String
  depends : Option (List String)
  sources : Option (List (String × String))
  vars : Option (List (String × String))
  config : Option (List (String × String))
deriving DecidableEq

/-- `CcLibraryStaticHandler._get_srcs`: `srcs` then the
`arch.<target_arch>.srcs` overlay. -/
def getSrcs (m : Module) (targetArch : String) : List String :=
  let srcs :=
    match lookupA m.properties "srcs" with
    | some p => extractStringList p
    | none => []
  let archSrcs :=
    match lookupA m.properties "arch" with
    | some (.map archProps) =>
        match lookupA archProps targetArch with
        | some (.map archSpecific) =>
            match lookupA archSpecific "srcs" with
            | some asp => extractStringList asp
            | none => []
        | _ => []
    | _ => []
  srcs ++ archSrcs

/-- `CcLibraryStaticHandler._get_cflags`. -/
def getCflags (m : Module) (targetArch : String) : List String :=
  let cflags :=
    match lookupA m.properties "cflags" with
    | some p => extractStringList p
    | none => []
  let archCflags :=
    match lookupA m.properties "arch" with
    | some (.map archProps) =>
        match lookupA archProps targetArch with
        | some (.map archSpecific) =>
            match lookupA archSpecific "cflags" with
            | some acp => extractStringList acp
            | none => []
        | _ => []
    | _ => []
  cflags ++ archCflags

/-- `CcLibraryStaticHandler._get_include_dirs`: `local_include_dirs`
then `include_dirs`. -/
def getIncludeDirs (m : Module) : List String :=
  (match lookupA m.properties "local_include_dirs" with
    | some p => extractStringList p
    | none => []) ++
  (match lookupA m.properties "include_dirs" with
    | some p => extractStringList p
    | none => [])

/-- `CcLibraryStaticHandler._get_export_include_dirs`. -/
def getExportIncludeDirs (m : Module) : List String :=
  match lookupA m.properties "export_include_dirs" with
  | some p => extractStringList p
  | none => []

/-- `CcLibraryStaticHandler._get_lib_deps`: one `external/<lib>.bst`
entry per name in `static_libs`, `shared_libs`, `whole_static_libs`,
`header_libs`, in that property order. -/
def getLibDeps (m : Module) : List String :=
  ((["static_libs", "shared_libs", "whole_static_libs", "header_libs"].map
    fun dt =>
      match lookupA m.properties dt with
      | some p => extractStringList p
      | none => []).flatten).map
    fun lib => "external/" ++ lib ++ ".bst"

/-- The shared body of `CcLibraryStaticHandler.convert` and
`CcBinaryHandler.convert`.  The shared/library subclasses overwrite
`variables["build-type"]` after construction, which (the key being
first in the dict) equals constructing with that `buildType`
directly. -/
def ccBaseConvert (buildType nameKey : String) (m : Module)
    (targetArch sourceDir : String) : Option (String × Element) :=
  match moduleName m with
  | none => none
  | some name =>
      if name = "" then none
      else
        let srcs := getSrcs m targetArch
        let cflags := getCflags m targetArch
        let includeDirs := getIncludeDirs m
        let exportDirs := getExportIncludeDirs m
        let vars0 := [("build-type", buildType), (nameKey, name),
          ("src-files", joinSpace srcs)]
        let vars1 :=
          if cflags ≠ [] then vars0 ++ [("extra-cflags", joinSpace cflags)]
          else vars0
        let vars2 :=
          if includeDirs ≠ [] ∨ exportDirs ≠ [] then
            vars1 ++ [("include-flags",
              joinSpace ((sortedSet (includeDirs ++ exportDirs)).map
                fun d => "-I" ++ d))]
          else vars1
        let deps := "base/aosp-sdk.bst" :: getLibDeps m
        some (name ++ ".bst",
          { kind := "aosp_cc", depends := some deps,
            sources := some (if sourceDir ≠ "" then [("local_external", sourceDir)] else []),
            vars := some vars2, config := none })

/-- `PrebuiltEtcHandler.convert` (`if not src:` also rejects the empty
string). -/
def prebuiltEtcConvert (m : Module) (sourceDir : String) :
    Option (String × Element) :=
  match moduleName m with
  | none => none
  | some name =>
      if name = "" then none
      else
        match lookupA m.properties "src" with
        | none => none
        | some sp =>
            match extractString sp with
            | none => none
            | some src =>
                if src = "" then none
                else
                  some (name ++ ".bst",
                    { kind := "import", depends := none,
                      sources := some (if sourceDir ≠ "" then [("local_external", sourceDir)] else []),
                      vars := none,
                      config := some [("source", src), ("target", "/etc")] })

/-- The handler registry of `module_types.py`. -/
inductive Handler where
  | ccLibraryStatic
  | ccLibraryShared
  | ccLibrary
  | ccBinary
  | ccDefaults
  | prebuiltEtc
  | skippedType

/-- `module_types.get_handler`: first handler whose `MODULE_TYPES`
contains the type, in registry order. -/
def getHandler (t : String) : Option Handler :=
  if t = "cc_library_static" then some .ccLibraryStatic
  else if t = "cc_library_shared" then some .ccLibraryShared
  else if t = "cc_library" then some .ccLibrary
  else if t = "cc_binary" ∨ t = "cc_binary_host" then some .ccBinary
  else if t = "cc_defaults" then some .ccDefaults
  else if t = "prebuilt_etc" ∨ t = "prebuilt_etc_host" then some .prebuiltEtc
  else if t ∈ ["package", "license", "ndk_headers", "ndk_library",
      "cc_test", "cc_test_host", "cc_fuzz", "cc_benchmark",
      "genrule", "filegroup", "vndk_prebuilt_shared"] then some .skippedType
  else none

/-- `handler.convert(resolved, target_arch, source_dir)`. -/
def applyHandler : Handler → Module → String → String → Option (String × Element)
  | .ccLibraryStatic, m, arch, sd => ccBaseConvert "static" "lib-name" m arch sd
  | .ccLibraryShared, m, arch, sd => ccBaseConvert "shared" "lib-name" m arch sd
  | .ccLibrary, m, arch, sd => ccBaseConvert "shared" "lib-name" m arch sd
  | .ccBinary, m, arch, sd => ccBaseConvert "binary" "binary-name" m arch sd
  | .ccDefaults, _, _, _ => none
  | .prebuiltEtc, m, _, sd => prebuiltEtcConvert m sd
  | .skippedType, _, _, _ => none

/-- `ConversionResult` of `converter.py`. -/
structure ConversionResult where
  elements : List (String × Element)
  skipped : List String
  errors : List String
  unsupported : List String
deriving DecidableEq

/-- `f"{module.type} '{module.name or '?'}'"`: Python `or` also
replaces an empty-string name by `?`. -/
def moduleDescr (m : Module) : String :=
  let n :=
    match moduleName m with
    | some s => if s = "" then "?" else s
    | none => "?"
  m.type ++ " \x27" ++ n ++ "\x27"

/-- `f"Evaluation error for {module.type} '{module.name}': {e}"`
(`str(None)` is the text `None`). -/
def evalErrMsg (m : Module) (e : EvalErr) : String :=
  let n :=
    match moduleName m with
    | some s => s
    | none => "None"
  "Evaluation error for " ++ m.type ++ " \x27" ++ n ++ "\x27: " ++ evalErrStr e

/-- The first loop of `convert_file`: evaluate every module, keeping
the successes in order and one error string per failing module. -/
def evalPhase (fuel : Nat) (vars : List (String × Expression)) :
    List Module → List Module × List String
  | [] => ([], [])
  | m :: rest =>
      let pr := evalPhase fuel vars rest
      match evalModule fuel vars m with
      | .ok m' => (m' :: pr.1, pr.2)
      | .error e => (pr.1, evalErrMsg m e :: pr.2)

/-- `os.path.join(output_prefix, filename)` for a relative filename,
applied only when the prefix is non-empty. -/
def joinPath (pfx fn : String) : String :=
  if pfx = "" then fn
  else if pfx.endsWith "/" then pfx ++ fn
  else pfx ++ "/" ++ fn

/-- The second loop of `convert_file`: dispatch each evaluated module
to its handler (resolving defaults first) and classify the outcome.
The embedded handlers are total, so the per-module `except` around
`handler.convert` has no error case here. -/
def convPhase (reg : List (String × Module)) (targetArch sourceDir pfx : String) :
    List Module → ConversionResult
  | [] => ⟨[], [], [], []⟩
  | m :: rest =>
      let r := convPhase reg targetArch sourceDir pfx rest
      match getHandler m.type with
      | none => { r with unsupported := moduleDescr m :: r.unsupported }
      | some h =>
          let resolved := resolve reg m
          match applyHandler h resolved targetArch sourceDir with
          | none => { r with skipped := moduleDescr m :: r.skipped }
          | some (fn, content) =>
              { r with elements := (joinPath pfx fn, content) :: r.elements }

/-- The mutable converter state: `Converter.__init__` builds one
`Evaluator` and one `DefaultsResolver`, shared by every
`convert_file` call on the same `Converter`. -/
structure ConvState where
  vars : List (String × Expression)
  registry : List (String × Module)

/-- `Converter.convert_file` on an already-parsed file (the `bp_path`
parsing and `source_dir` derivation are I/O; `sourceDir` is
`os.path.dirname(os.path.abspath(bp_path))`).  Returns the
`ConversionResult` and the converter state left behind for the next
call. -/
def convertFile (fuel : Nat) (st : ConvState) (file : File)
    (targetArch sourceDir pfx : String) : ConversionResult × ConvState :=
  let vars' := addFileVariables st.vars file
  let ep := evalPhase fuel vars' file.modules
  let reg' := registerDefaults st.registry ep.1
  let r := convPhase reg' targetArch sourceDir pfx ep.1
  ({ r with errors := ep.2 ++ r.errors }, ⟨vars', reg'⟩)

/-- The characters `{}[]#&*!|>',@%` that trigger double quoting in
`Converter._format_bst`. -/
def yamlSpecials : List Char :=
  ['\x7b', '\x7d', '[', ']', '#', '&', '*', '!', '|', '>', '\x27', ',', '@', '%']

/-- Python `c in value` for a character `c`: membership among the
characters of `v`. -/
def charIn (v : String) (c : Char) : Bool :=
  v.data.contains c

/-- `any(c in value for c in "{}[]#&*!|>',@%")`. -/
def hasSpecial (v : String) : Bool :=
  yamlSpecials.any fun c => charIn v c

/-- The lines emitted for one `variables` entry by `_format_bst`:
block scalar for values with a newline, double quotes for special
characters, bare text otherwise. -/
def varLines (kv : String × String) : List String :=
  if charIn kv.2 '\n' then
    ("  " ++ kv.1 ++ ": |") :: ((kv.2.splitOn "\n").map fun l => "    " ++ l)
  else if hasSpecial kv.2 then ["  " ++ kv.1 ++ ": \x22" ++ kv.2 ++ "\x22"]
  else ["  " ++ kv.1 ++ ": " ++ kv.2]

/-- The line emitted for one `config` entry by `_format_bst`. -/
def configLine (kv : String × String) : String :=
  "  " ++ kv.1 ++ ": " ++ kv.2

/-- The `depends` block of `_format_bst`. -/
def dependsLines (e : Element) : List String :=
  match e.depends with
  | some ds => "depends:" :: ds.map (fun d => "- " ++ d) ++ [""]
  | none => []

/-- The `sources` block of `_format_bst` (skipped when the list is
empty). -/
def sourcesLines (e : Element) : List String :=
  match e.sources with
  | some ss =>
      if ss.isEmpty then []
      else "sources:" :: (ss.map fun s => ["- kind: " ++ s.1, "  path: " ++ s.2]).flatten ++ [""]
  | none => []

/-- The `variables` block of `_format_bst`. -/
def varsLinesBlock (e : Element) : List String :=
  match e.vars with
  | some vs => "variables:" :: (vs.map varLines).flatten ++ [""]
  | none => []

/-- The `config` block of `_format_bst`. -/
def configLinesBlock (e : Element) : List String :=
  match e.config with
  | some cs => "config:" :: cs.map configLine ++ [""]
  | none => []

/-- The `lines` list built by `Converter._format_bst`: the blocks in
order `kind`, `depends`, `sources`, `variables`, `config`. -/
def bstLines (e : Element) : List String :=
  ("kind: " ++ e.kind) :: "" ::
    (dependsLines e ++ sourcesLines e ++ varsLinesBlock e ++ configLinesBlock e)

/-- `Converter._format_bst`: `"\n".join(lines)`. -/
def formatBst (e : Element) : String :=
  String.intercalate "\n" (bstLines e)

/-- `parser.ParseError` as raised by the lexer, keeping the offending
character (Python formats it into the message) and the 1-based
position. -/
inductive LexError where
  | unexpectedChar (c : Char) (line col : Nat)
  | unterminatedString (line col : Nat)
deriving DecidableEq

/-- Token kinds of `parser.py` with their payloads. -/
inductive TokKind where
  | ident (value : String)
  | str (value : String)
  | int (value : Int)
  | lbrace
  | rbrace
  | lbracket
  | rbracket
  | lparen
  | rparen
  | colon
  | comma
  | equals
  | plus
  | pluseq
  | eof
deriving DecidableEq

/-- `parser.Token`. -/
structure Token where
  kind : TokKind
  line : Nat
  col : Nat
deriving DecidableEq

/-- `parser.Lexer` state: the unread suffix of the text and the
1-based `line`/`col` of its first character. -/
structure LexState where
  rest : List Char
  line : Nat
  col : Nat
deriving DecidableEq

/-- `Lexer._advance()`. -/
def advance (st : LexState) : LexState :=
  match st.rest with
  | [] => st
  | c :: rs =>
      if c = '\n' then ⟨rs, st.line + 1, 1⟩ else ⟨rs, st.line, st.col + 1⟩

/-- The line-comment loop: advance while the current character is not
a newline. -/
def skipLineComment : List Char → Nat → Nat → LexState
  | [], line, col => ⟨[], line, col⟩
  | c :: rs, line, col =>
      if c = '\n' then ⟨c :: rs, line, col⟩
      else skipLineComment rs line (col + 1)

/-- The block-comment loop: advance until `*/` (consumed) or end of
input. -/
def skipBlockComment : List Char → Nat → Nat → LexState
  | [], line, col => ⟨[], line, col⟩
  | c :: rs, line, col =>
      if c = '*' ∧ rs.head? = some '/' then ⟨rs.tail, line, col + 2⟩
      else if c = '\n' then skipBlockComment rs (line + 1) 1
      else skipBlockComment rs line (col + 1)

theorem skipLineComment_length_le (l : List Char) (line col : Nat) :
    (skipLineComment l line col).rest.length ≤ l.length := by
  induction l generalizing col with
  | nil => simp [skipLineComment]
  | cons c rs ih =>
      rw [skipLineComment]
      by_cases hc : c = '\n'
      · simp [hc]
      · simp only [if_neg hc]
        exact Nat.le_trans (ih (col + 1)) (Nat.le_succ _)

theorem skipBlockComment_length_le (l : List Char) :
    ∀ line col, (skipBlockComment l line col).rest.length ≤ l.length := by
  induction l with
  | nil => intro line col; simp [skipBlockComment]
  | cons c rs ih =>
      intro line col
      rw [skipBlockComment]
      split_ifs with h1 h2
      · have : rs.tail.length ≤ rs.length := by
          cases rs <;> simp
        simpa using Nat.le_trans this (Nat.le_succ _)
      · exact Nat.le_trans (ih (line + 1) 1) (Nat.le_succ _)
      · exact Nat.le_trans (ih line (col + 1)) (Nat.le_succ _)

/-- `Lexer._skip_whitespace_and_comments`: the outer loop over
whitespace, `//` comments and `/* */` comments. -/
def skipWsGo : List Char → Nat → Nat → LexState
  | [], line, col => ⟨[], line, col⟩
  | c :: rs, line, col =>
      if c = '\n' then skipWsGo rs (line + 1) 1
      else if c = ' ' ∨ c = '\t' ∨ c = '\r' then skipWsGo rs line (col + 1)
      else
        match c, rs with
        | '/', '/' :: rs2 =>
            let st := skipLineComment ('/' :: '/' :: rs2) line col
            skipWsGo st.rest st.line st.col
        | '/', '*' :: rs2 =>
            let st := skipBlockComment rs2 line (col + 2)
            skipWsGo st.rest st.line st.col
        | _, _ => ⟨c :: rs, line, col⟩
termination_by l _ _ => l.length
decreasing_by
  · simp
  · simp
  · show (skipLineComment _ _ _).rest.length < _
    rw [skipLineComment, if_neg (by decide), skipLineComment, if_neg (by decide)]
    have := skipLineComment_length_le rs2 line (col + 1 + 1)
    simp only [List.length_cons]
    omega
  · show (skipBlockComment _ _ _).rest.length < _
    have := skipBlockComment_length_le rs2 line (col + 2)
    simp only [List.length_cons]
    omega

/-- `skipWsGo` on a packaged state. -/
def skipWs (st : LexState) : LexState :=
  skipWsGo st.rest st.line st.col

/-- The non-ASCII part of Python `str.isalpha` on Latin-1 code
points: U+00AA, U+00B5, U+00BA and the letter ranges U+00C0-U+00D6,
U+00D8-U+00F6, U+00F8-U+00FF (Unicode Character Database). -/
def pyIsAlphaExtra (n : Nat) : Bool :=
  n == 0xAA || n == 0xB5 || n == 0xBA ||
  (decide (0xC0 ≤ n) && decide (n ≤ 0xD6)) ||
  (decide (0xD8 ≤ n) && decide (n ≤ 0xF6)) ||
  (decide (0xF8 ≤ n) && decide (n ≤ 0xFF))

/-- Python `str.isalpha`, exact on code points below U+0100; above
U+00FF the model returns `false` (outside the modelled domain). -/
def pyIsAlpha (c : Char) : Bool :=
  c.isAlpha || pyIsAlphaExtra c.toNat

/-- The non-ASCII part of Python `str.isdigit` on Latin-1: the
superscripts U+00B2, U+00B3, U+00B9. -/
def pyIsDigitExtra (n : Nat) : Bool :=
  n == 0xB2 || n == 0xB3 || n == 0xB9

/-- Python `str.isdigit`, exact on code points below U+0100; above
U+00FF the model returns `false`. -/
def pyIsDigit (c : Char) : Bool :=
  c.isDigit || pyIsDigitExtra c.toNat

/-- Python `str.isalnum` (alpha, digit, or numeric), exact on code
points below U+0100: the numeric-only Latin-1 characters are the
fractions U+00BC, U+00BD, U+00BE. -/
def pyIsAlnum (c : Char) : Bool :=
  pyIsAlpha c || pyIsDigit c ||
  (c.toNat == 0xBC || c.toNat == 0xBD || c.toNat == 0xBE)

/-- Identifier continuation characters: `isalnum() or "_"`. -/
def identCont (c : Char) : Bool :=
  pyIsAlnum c || c = '_'

/-- `Lexer._read_ident`: the maximal run of identifier-continuation
characters from the current position, with the advanced state. -/
def readIdentGo : List Char → Nat → Nat → List Char × LexState
  | [], line, col => ([], ⟨[], line, col⟩)
  | c :: rs, line, col =>
      if identCont c then
        let pr := readIdentGo rs (if c = '\n' then line + 1 else line)
          (if c = '\n' then 1 else col + 1)
        (c :: pr.1, pr.2)
      else ([], ⟨c :: rs, line, col⟩)

/-- The digit loop of `Lexer._read_int` (`text[pos].isdigit()`). -/
def readDigitsGo : List Char → Nat → Nat → List Char × LexState
  | [], line, col => ([], ⟨[], line, col⟩)
  | c :: rs, line, col =>
      if pyIsDigit c then
        let pr := readDigitsGo rs line (col + 1)
        (c :: pr.1, pr.2)
      else ([], ⟨c :: rs, line, col⟩)

/-- `int(...)` on the collected run, exact for ASCII digit runs.  On a
run containing a Latin-1 superscript digit Python's `int()` raises
`ValueError` — an exception distinct from `ParseError` that escapes
`next_token`; no theorem below depends on the integer branch for such
characters. -/
def digitsToNat (ds : List Char) : Nat :=
  ds.foldl (fun acc c => acc * 10 + (c.toNat - '0'.toNat)) 0

/-- `Lexer._read_string` after the opening quote: collect characters,
translating `\n`, `\t`, `\\`, `\"` and passing any other escaped
character through; an unterminated string is an error carrying the
position reached. -/
def readStringGo : List Char → Nat → Nat → List Char → Except LexError (List Char × LexState)
  | [], line, col, _ => .error (.unterminatedString line col)
  | ['\\'], line, col, _ => .error (.unterminatedString line (col + 1))
  | '\\' :: esc :: rs, line, col, acc =>
      let mapped :=
        if esc = 'n' then '\n'
        else if esc = 't' then '\t'
        else if esc = '\\' then '\\'
        else if esc = '\x22' then '\x22'
        else esc
      readStringGo rs (if esc = '\n' then line + 1 else line)
        (if esc = '\n' then 1 else col + 2) (acc ++ [mapped])
  | c :: rs, line, col, acc =>
      if c = '\x22' then .ok (acc, ⟨rs, line, col + 1⟩)
      else
        readStringGo rs (if c = '\n' then line + 1 else line)
          (if c = '\n' then 1 else col + 1) (acc ++ [c])

/-- `Lexer.next_token`. -/
def nextToken (st : LexState) : Except LexError (Token × LexState) :=
  let st1 := skipWs st
  match st1.rest with
  | [] => .ok (⟨.eof, st1.line, st1.col⟩, st1)
  | c :: rs =>
      if c = '\x22' then
        match readStringGo rs st1.line (st1.col + 1) [] with
        | .error e => .error e
        | .ok (chars, st2) => .ok (⟨.str (String.mk chars), st1.line, st1.col⟩, st2)
      else if pyIsAlpha c ∨ c = '_' then
        let pr := readIdentGo st1.rest st1.line st1.col
        .ok (⟨.ident (String.mk pr.1), st1.line, st1.col⟩, pr.2)
      else if pyIsDigit c ∨ (c = '-' ∧ (rs.head?.map pyIsDigit).getD false) then
        if c = '-' then
          let pr := readDigitsGo rs st1.line (st1.col + 1)
          .ok (⟨.int (-(Int.ofNat (digitsToNat pr.1))), st1.line, st1.col⟩, pr.2)
        else
          let pr := readDigitsGo st1.rest st1.line st1.col
          .ok (⟨.int (Int.ofNat (digitsToNat pr.1)), st1.line, st1.col⟩, pr.2)
      else if c = '\x7b' then .ok (⟨.lbrace, st1.line, st1.col⟩, advance st1)
      else if c = '\x7d' then .ok (⟨.rbrace, st1.line, st1.col⟩, advance st1)
      else if c = '[' then .ok (⟨.lbracket, st1.line, st1.col⟩, advance st1)
      else if c = ']' then .ok (⟨.rbracket, st1.line, st1.col⟩, advance st1)
      else if c = '(' then .ok (⟨.lparen, st1.line, st1.col⟩, advance st1)
      else if c = ')' then .ok (⟨.rparen, st1.line, st1.col⟩, advance st1)
      else if c = ':' then .ok (⟨.colon, st1.line, st1.col⟩, advance st1)
      else if c = ',' then .ok (⟨.comma, st1.line, st1.col⟩, advance st1)
      else if c = '+' then
        match rs with
        | '=' :: rs2 => .ok (⟨.pluseq, st1.line, st1.col⟩, ⟨rs2, st1.line, st1.col + 2⟩)
        | _ => .ok (⟨.plus, st1.line, st1.col⟩, advance st1)
      else if c = '=' then .ok (⟨.equals, st1.line, st1.col⟩, advance st1)
      else .error (.unexpectedChar c st1.line st1.col)

/-! ## Theorems -/

theorem extractStringGo_eq_filterMap (vs : List Expression) :
    extractStringGo vs = vs.filterMap extractString := by
  induction vs with
  | nil => rfl
  | cons v rest ih =>
      rw [extractStringGo, List.filterMap_cons]
      cases h : extractString v <;> simp [h, ih]

/-- Claim C10: `extract_string_list` on a `ListExpr` with mixed
elements returns exactly the values of its `StringExpr` elements in
list order, dropping every non-string element (in particular it is
non-empty as soon as one string element is present), and on every
non-`ListExpr` expression it returns the empty list. -/
theorem c10_extract_string_list :
    (∀ vs : List Expression,
      extractStringList (.list vs) = vs.filterMap extractString) ∧
    (∀ vs : List Expression, (∃ s, Expression.str s ∈ vs) →
      extractStringList (.list vs) ≠ []) ∧
    (∀ e : Expression, (∀ vs, e ≠ .list vs) → extractStringList e = []) := by
  refine ⟨fun vs => extractStringGo_eq_filterMap vs, fun vs h => ?_, fun e he => ?_⟩
  · obtain ⟨s, hs⟩ := h
    rw [extractStringList, extractStringGo_eq_filterMap]
    exact List.ne_nil_of_mem (List.mem_filterMap.mpr ⟨.str s, hs, rfl⟩)
  · cases e with
    | list vs => exact absurd rfl (he vs)
    | str s => rfl
    | bool b => rfl
    | int i => rfl
    | map ps => rfl
    | var n => rfl
    | op l o r => rfl
    | select f a c => rfl

/-- Witness for C10 at concrete inputs. -/
theorem c10_witness :
    extractStringList (.list [.str "a", .bool true, .str "b"]) = ["a", "b"] ∧
    extractStringList (.str "x") = [] := by
  constructor
  · exact (c10_extract_string_list.1 [.str "a", .bool true, .str "b"]).trans rfl
  · exact c10_extract_string_list.2.2 (.str "x") (fun vs h => by cases h)

/-- Claim C2: evaluating a `+` operator node whose two sides evaluate
to lists yields the concatenated list; two string sides yield the
concatenated string; any other pair of evaluated shapes yields an
operator node with the two evaluated sides, and no error is raised.
(The conclusion runs at `fuel + 1` because the operator node itself
consumes one recursion frame before evaluating its sides.) -/
theorem c2_eval_plus (fuel : Nat) (vars : List (String × Expression)) (a b : Expression) :
    (∀ xs ys, eval fuel vars a = .ok (.list xs) → eval fuel vars b = .ok (.list ys) →
      eval (fuel + 1) vars (.op a "+" b) = .ok (.list (xs ++ ys))) ∧
    (∀ s t, eval fuel vars a = .ok (.str s) → eval fuel vars b = .ok (.str t) →
      eval (fuel + 1) vars (.op a "+" b) = .ok (.str (s ++ t))) ∧
    (∀ ea eb, eval fuel vars a = .ok ea → eval fuel vars b = .ok eb →
      (∀ xs ys, ¬(ea = .list xs ∧ eb = .list ys)) →
      (∀ s t, ¬(ea = .str s ∧ eb = .str t)) →
      eval (fuel + 1) vars (.op a "+" b) = .ok (.op ea "+" eb)) := by
  refine ⟨fun xs ys h1 h2 => ?_, fun s t h1 h2 => ?_, fun ea eb h1 h2 hl hs => ?_⟩
  · rw [eval, h1, h2]
    simp
  · rw [eval, h1, h2]
    simp
  · rw [eval, h1, h2]
    simp only [if_pos rfl]
    cases ea <;> cases eb <;>
      first
        | rfl
        | exact absurd ⟨rfl, rfl⟩ (hl _ _)
        | exact absurd ⟨rfl, rfl⟩ (hs _ _)

/-- Witness for C2 at concrete inputs. -/
theorem c2_witness :
    eval 3 [] (.op (.list [.str "p"]) "+" (.list [.str "q"])) =
      .ok (.list [.str "p", .str "q"]) ∧
    eval 2 [] (.op (.str "p") "+" (.str "q")) = .ok (.str "pq") ∧
    eval 2 [] (.op (.str "p") "+" (.list [])) =
      .ok (.op (.str "p") "+" (.list [])) := by
  refine ⟨?_, ?_, ?_⟩
  · exact (c2_eval_plus 2 [] (.list [.str "p"]) (.list [.str "q"])).1
      [.str "p"] [.str "q"] rfl rfl
  · exact (c2_eval_plus 1 [] (.str "p") (.str "q")).2.1 "p" "q" rfl rfl
  · exact (c2_eval_plus 1 [] (.str "p") (.list [])).2.2 (.str "p") (.list []) rfl rfl
      (fun xs ys h => by cases h.1) (fun s t h => by cases h.2)

/-- The names bound by one library-dependency property, as the claim
phrases it. -/
def libNames (m : Module) (p : String) : List String :=
  match lookupA m.properties p with
  | some e => extractStringList e
  | none => []

theorem ccBaseConvert_depends (bt nk : String) (m : Module) (arch sd n : String)
    (hn : moduleName m = some n) (hne : n ≠ "") :
    ∃ el : Element, ccBaseConvert bt nk m arch sd = some (n ++ ".bst", el) ∧
      el.depends = some ("base/aosp-sdk.bst" :: getLibDeps m) := by
  simp only [ccBaseConvert, hn]
  rw [if_neg hne]
  exact ⟨_, rfl, rfl⟩

/-- Claim C7: every named module of the five cc types is converted to
an element whose `depends` is `"base/aosp-sdk.bst"` followed by one
`external/<lib>.bst` entry per name in `static_libs`, `shared_libs`,
`whole_static_libs`, `header_libs`, in that property order, each
property's own list order preserved.  (`name = ""` is excluded: the
Python handler treats a falsy name as unnamed and skips the module.) -/
theorem c7_cc_depends (m : Module) (t arch sd n : String) (h : Handler)
    (ht : t = "cc_library_static" ∨ t = "cc_library_shared" ∨ t = "cc_library" ∨
      t = "cc_binary" ∨ t = "cc_binary_host")
    (hh : getHandler t = some h)
    (hn : moduleName m = some n) (hne : n ≠ "") :
    ∃ el : Element, applyHandler h m arch sd = some (n ++ ".bst", el) ∧
      el.depends = some ("base/aosp-sdk.bst" ::
        ((libNames m "static_libs" ++ libNames m "shared_libs" ++
          libNames m "whole_static_libs" ++ libNames m "header_libs").map
          fun lib => "external/" ++ lib ++ ".bst")) := by
  have hlib : getLibDeps m =
      (libNames m "static_libs" ++ libNames m "shared_libs" ++
        libNames m "whole_static_libs" ++ libNames m "header_libs").map
        fun lib => "external/" ++ lib ++ ".bst" := by
    simp [getLibDeps, libNames]
  rcases ht with ht | ht | ht | ht | ht <;> subst ht <;> simp [getHandler] at hh <;>
    subst hh
  all_goals
    first
      | (obtain ⟨el, h1, h2⟩ := ccBaseConvert_depends "static" "lib-name" m arch sd n hn hne
         exact ⟨el, h1, by rw [h2, hlib]⟩)
      | (obtain ⟨el, h1, h2⟩ := ccBaseConvert_depends "shared" "lib-name" m arch sd n hn hne
         exact ⟨el, h1, by rw [h2, hlib]⟩)
      | (obtain ⟨el, h1, h2⟩ := ccBaseConvert_depends "binary" "binary-name" m arch sd n hn hne
         exact ⟨el, h1, by rw [h2, hlib]⟩)

/-- Witness for C7 at a concrete input (the S6 scenario). -/
theorem c7_witness :
    ∃ el : Element,
      applyHandler .ccBinary
        ⟨"cc_binary", [("name", .str "bz"), ("srcs", .list [.str "m.c"]),
          ("static_libs", .list [.str "libbz"]), ("shared_libs", .list [.str "libz"])]⟩
        "x86_64" "" = some ("bz.bst", el) ∧
      el.depends = some ("base/aosp-sdk.bst" ::
        ((libNames ⟨"cc_binary", [("name", .str "bz"), ("srcs", .list [.str "m.c"]),
          ("static_libs", .list [.str "libbz"]), ("shared_libs", .list [.str "libz"])]⟩ "static_libs" ++
          libNames ⟨"cc_binary", [("name", .str "bz"), ("srcs", .list [.str "m.c"]),
          ("static_libs", .list [.str "libbz"]), ("shared_libs", .list [.str "libz"])]⟩ "shared_libs" ++
          libNames ⟨"cc_binary", [("name", .str "bz"), ("srcs", .list [.str "m.c"]),
          ("static_libs", .list [.str "libbz"]), ("shared_libs", .list [.str "libz"])]⟩ "whole_static_libs" ++
          libNames ⟨"cc_binary", [("name", .str "bz"), ("srcs", .list [.str "m.c"]),
          ("static_libs", .list [.str "libbz"]), ("shared_libs", .list [.str "libz"])]⟩ "header_libs").map
          fun lib => "external/" ++ lib ++ ".bst")) :=
  c7_cc_depends _ "cc_binary" "x86_64" "" "bz" .ccBinary (by tauto) rfl rfl (by decide)

/-- Claim C8, counterexample: the serializer renders the `config`
scalar `"a,b"` — which contains the special character `,` — unquoted,
so the claim's "this holds … including 'config'" is false on the code.
The quoted line does not appear anywhere in the output lines. -/
theorem c8_counterexample :
    hasSpecial "a,b" = true ∧
    bstLines ⟨"import", none, none, none, some [("source", "a,b")]⟩ =
      ["kind: import", "", "config:", "  source: a,b", ""] ∧
    ("  source: \x22a,b\x22" ∈
      bstLines ⟨"import", none, none, none, some [("source", "a,b")]⟩ → False) := by
  refine ⟨by decide, by decide, by decide⟩

/-- Claim C8, amended: in the `variables` block a scalar value without
a newline is double-quoted exactly when it contains one of
`{ } [ ] # & * ! | > ' , @ %`, and unquoted otherwise; `config` block
scalars are always rendered unquoted. -/
theorem c8_quoting (e : Element) (k v : String) :
    (∀ vs, e.vars = some vs → (k, v) ∈ vs → charIn v '\n' = false →
      (hasSpecial v = true →
        ("  " ++ k ++ ": \x22" ++ v ++ "\x22") ∈ bstLines e) ∧
      (hasSpecial v = false →
        ("  " ++ k ++ ": " ++ v) ∈ bstLines e)) ∧
    (∀ cs, e.config = some cs → (k, v) ∈ cs →
      ("  " ++ k ++ ": " ++ v) ∈ bstLines e) := by
  constructor
  · intro vs hv hmem hnl
    have hblock : ∀ line, line ∈ varLines (k, v) → line ∈ bstLines e := by
      intro line hline
      have h1 : line ∈ (vs.map varLines).flatten :=
        List.mem_flatten.mpr ⟨varLines (k, v), List.mem_map_of_mem _ hmem, hline⟩
      have h2 : line ∈ varsLinesBlock e := by
        rw [varsLinesBlock, hv]
        exact List.mem_cons_of_mem _ (List.mem_append_left _ h1)
      rw [bstLines]
      refine List.mem_cons_of_mem _ (List.mem_cons_of_mem _ ?_)
      exact List.mem_append_left _ (List.mem_append_right _ h2)
    constructor
    · intro hsp
      apply hblock
      rw [varLines]
      simp only [hnl, Bool.false_eq_true, if_false, hsp, if_true]
      exact List.mem_singleton.mpr rfl
    · intro hsp
      apply hblock
      rw [varLines]
      simp only [hnl, Bool.false_eq_true, if_false, hsp]
      exact List.mem_singleton.mpr rfl
  · intro cs hc hmem
    have h2 : ("  " ++ k ++ ": " ++ v) ∈ configLinesBlock e := by
      rw [configLinesBlock, hc]
      refine List.mem_cons_of_mem _ (List.mem_append_left _ ?_)
      exact List.mem_map_of_mem configLine hmem
    rw [bstLines]
    refine List.mem_cons_of_mem _ (List.mem_cons_of_mem _ ?_)
    exact List.mem_append_right _ h2

/-- Witness for the amended C8 at concrete inputs. -/
theorem c8_witness :
    (("  cflags: \x22-O2,-g\x22" ∈
      bstLines ⟨"aosp_cc", none, none, some [("cflags", "-O2,-g")], none⟩) ∧
      ("  lib-name: libz" ∈
        bstLines ⟨"aosp_cc", none, none, some [("lib-name", "libz")], none⟩)) ∧
    ("  target: /etc" ∈
      bstLines ⟨"import", none, none, none, some [("target", "/etc")]⟩) := by
  refine ⟨⟨?_, ?_⟩, ?_⟩
  · exact ((c8_quoting ⟨"aosp_cc", none, none, some [("cflags", "-O2,-g")], none⟩
      "cflags" "-O2,-g").1 [("cflags", "-O2,-g")] rfl (by decide) rfl).1 rfl
  · exact ((c8_quoting ⟨"aosp_cc", none, none, some [("lib-name", "libz")], none⟩
      "lib-name" "libz").1 [("lib-name", "libz")] rfl (by decide) rfl).2 rfl
  · exact (c8_quoting ⟨"import", none, none, none, some [("target", "/etc")]⟩
      "target" "/etc").2 [("target", "/etc")] rfl (by decide)

/-- The values bound to a property name, in property-list order (a
module that "binds a List value to P" has `bindings … P = [that
list]`). -/
def bindings (props : List (String × Expression)) (n : String) : List Expression :=
  (props.filter fun p => p.1 = n).map fun p => p.2

theorem lookupA_mergeStep_self (t : List (String × Expression)) (n : String) (v : Expression) :
    lookupA (mergeStep t n v) n =
      some (match lookupA t n with | some w => mergeValues w v | none => v) := by
  induction t with
  | nil => simp [mergeStep, lookupA]
  | cons hd tl ih =>
      obtain ⟨k, w⟩ := hd
      rw [mergeStep]
      by_cases hk : k = n
      · subst hk
        simp [lookupA]
      · rw [if_neg hk]
        simp only [lookupA, if_neg hk]
        exact ih

theorem lookupA_mergeStep_ne (t : List (String × Expression)) (n : String) (v : Expression)
    (m : String) (hm : m ≠ n) :
    lookupA (mergeStep t n v) m = lookupA t m := by
  induction t with
  | nil =>
      have : ¬ n = m := fun h => hm h.symm
      simp [mergeStep, lookupA, this]
  | cons hd tl ih =>
      obtain ⟨k, w⟩ := hd
      rw [mergeStep]
      by_cases hk : k = n
      · rw [if_pos hk]
        have hkm : ¬ k = m := fun h => hm (h.symm.trans hk)
        rw [lookupA, lookupA, if_neg hkm, if_neg hkm]
      · rw [if_neg hk]
        rw [lookupA, lookupA]
        by_cases hkm : k = m
        · rw [if_pos hkm, if_pos hkm]
        · rw [if_neg hkm, if_neg hkm]
          exact ih

/-- Folding `_merge_values` over successive bindings of one name, as
`_merge_properties` does for a repeatedly-bound property. -/
def foldMergeOpt (o : Option Expression) (vs : List Expression) : Option Expression :=
  vs.foldl
    (fun acc v => some (match acc with | some x => mergeValues x v | none => v)) o

theorem lookupA_mergeProperties (props : List (String × Expression)) :
    ∀ t P, P ≠ "name" → P ≠ "defaults" →
    lookupA (mergeProperties t props) P = foldMergeOpt (lookupA t P) (bindings props P) := by
  induction props with
  | nil => intro t P _ _; rfl
  | cons p rest ih =>
      intro t P h1 h2
      obtain ⟨n, v⟩ := p
      have step : mergeProperties t ((n, v) :: rest) =
          mergeProperties (if n = "name" ∨ n = "defaults" then t else mergeStep t n v) rest := rfl
      rw [step]
      by_cases hnv : n = "name" ∨ n = "defaults"
      · rw [if_pos hnv]
        have hnP : ¬ n = P := by
          rcases hnv with h | h <;> subst h
          · exact fun hh => h1 hh.symm
          · exact fun hh => h2 hh.symm
        have hb : bindings ((n, v) :: rest) P = bindings rest P := by
          simp [bindings, List.filter_cons, hnP]
        rw [hb]
        exact ih t P h1 h2
      · rw [if_neg hnv]
        by_cases hnP : n = P
        · subst hnP
          have hb : bindings ((n, v) :: rest) n = v :: bindings rest n := by
            simp [bindings, List.filter_cons]
          rw [hb]
          have hfold : foldMergeOpt (lookupA t n) (v :: bindings rest n) =
              foldMergeOpt
                (some (match lookupA t n with | some w => mergeValues w v | none => v))
                (bindings rest n) := rfl
          rw [hfold, ← lookupA_mergeStep_self t n v]
          exact ih (mergeStep t n v) n h1 h2
        · have hb : bindings ((n, v) :: rest) P = bindings rest P := by
            simp [bindings, List.filter_cons, hnP]
          rw [hb, ih (mergeStep t n v) P h1 h2,
            lookupA_mergeStep_ne t n v P (fun h => hnP h.symm)]

theorem bindings_filter_ne_defaults (props : List (String × Expression)) (P : String)
    (h : P ≠ "defaults") :
    bindings (props.filter fun p => p.1 ≠ "defaults") P = bindings props P := by
  unfold bindings
  rw [List.filter_filter]
  refine congrArg _ (List.filter_congr ?_)
  intro a _
  by_cases hp : a.1 = P
  · simp [hp, h]
  · simp [hp]

theorem collectGo_two (reg : List (String × Module)) (d1 d2 : String) (D1 D2 : Module)
    (hne : d1 ≠ d2) (h1 : lookupA reg d1 = some D1) (h2 : lookupA reg d2 = some D2)
    (hd1 : lookupA D1.properties "defaults" = none)
    (hd2 : lookupA D2.properties "defaults" = none) :
    collectGo reg [.visit d1, .visit d2] ⟨[], []⟩ =
      ⟨[D1, D2], [d2, d1]⟩ := by
  have hc2 : (([d1] : List String).contains d2) = false := by
    simp [List.contains_cons]
    exact fun h => hne h.symm
  rw [collectGo]
  simp only [List.contains_nil, Bool.false_eq_true, dite_false, h1, hd1]
  split
  · next heq => rw [h1] at heq; cases heq
  · next dm heq =>
      rw [h1] at heq
      injection heq with heq
      subst heq
      simp only [hd1, List.map_nil, List.nil_append]
      rw [collectGo]
      rw [collectGo]
      simp only [hc2, Bool.false_eq_true, dite_false]
      split
      · next heq2 => rw [h2] at heq2; cases heq2
      · next dm2 heq2 =>
          rw [h2] at heq2
          injection heq2 with heq2
          subst heq2
          simp only [hd2, List.map_nil, List.nil_append]
          rw [collectGo]
          rw [collectGo]
          simp

theorem mergeStep_keys_pred (p : String → Prop) (t : List (String × Expression))
    (n : String) (v : Expression) (ht : ∀ q ∈ t, p q.1) (hn : p n) :
    ∀ q ∈ mergeStep t n v, p q.1 := by
  induction t with
  | nil =>
      intro q hq
      rw [mergeStep] at hq
      simp at hq
      subst hq
      exact hn
  | cons hd tl ih =>
      obtain ⟨k, w⟩ := hd
      intro q hq
      rw [mergeStep] at hq
      by_cases hk : k = n
      · rw [if_pos hk] at hq
        rcases List.mem_cons.mp hq with h | h
        · rw [h]
          exact ht (k, w) (List.mem_cons_self _ _)
        · exact ht q (List.mem_cons_of_mem _ h)
      · rw [if_neg hk] at hq
        rcases List.mem_cons.mp hq with h | h
        · rw [h]
          exact ht (k, w) (List.mem_cons_self _ _)
        · exact ih (fun q hq => ht q (List.mem_cons_of_mem _ hq)) q h

theorem mergeProperties_keys_not_name (props : List (String × Expression)) :
    ∀ t, (∀ q ∈ t, q.1 ≠ "name") →
    ∀ q ∈ mergeProperties t props, q.1 ≠ "name" := by
  induction props with
  | nil => intro t ht; exact ht
  | cons p rest ih =>
      intro t ht
      have step : mergeProperties t (p :: rest) =
          mergeProperties (if p.1 = "name" ∨ p.1 = "defaults" then t else mergeStep t p.1 p.2)
            rest := rfl
      rw [step]
      by_cases hnv : p.1 = "name" ∨ p.1 = "defaults"
      · rw [if_pos hnv]
        exact ih t ht
      · rw [if_neg hnv]
        push_neg at hnv
        exact ih _ (mergeStep_keys_pred (fun s => s ≠ "name") t p.1 p.2 ht hnv.1)

/-- Claim C1: for a module whose `defaults` is `[D1, D2]` (two distinct
registered defaults modules, neither with a `defaults` property of its
own), where `D1`, `D2` and the module each bind exactly one List value
to the same property name `P` (`P` not `name`/`defaults`), the resolved
module binds `P` to the concatenation `D1.P ++ D2.P ++ M.P`. -/
theorem c1_defaults_list_concat (reg : List (String × Module)) (m D1 D2 : Module)
    (d1 d2 P : String) (v1 v2 vm : List Expression)
    (hne : d1 ≠ d2) (hP1 : P ≠ "name") (hP2 : P ≠ "defaults")
    (hreg1 : lookupA reg d1 = some D1) (hreg2 : lookupA reg d2 = some D2)
    (hD1nd : lookupA D1.properties "defaults" = none)
    (hD2nd : lookupA D2.properties "defaults" = none)
    (hmd : lookupA m.properties "defaults" = some (.list [.str d1, .str d2]))
    (hb1 : bindings D1.properties P = [.list v1])
    (hb2 : bindings D2.properties P = [.list v2])
    (hbm : bindings m.properties P = [.list vm]) :
    lookupA (resolve reg m).properties P = some (.list (v1 ++ v2 ++ vm)) := by
  have hcol := collectGo_two reg d1 d2 D1 D2 hne hreg1 hreg2 hD1nd hD2nd
  have hfinal : lookupA
      (mergeProperties (mergeProperties (mergeProperties [] D1.properties) D2.properties)
        (m.properties.filter fun p => p.1 ≠ "defaults")) P =
      some (.list (v1 ++ v2 ++ vm)) := by
    rw [lookupA_mergeProperties _ _ _ hP1 hP2, bindings_filter_ne_defaults _ _ hP2, hbm,
      lookupA_mergeProperties _ _ _ hP1 hP2, hb2,
      lookupA_mergeProperties _ _ _ hP1 hP2, hb1]
    show foldMergeOpt (foldMergeOpt (foldMergeOpt none [.list v1]) [.list v2]) [.list vm] = _
    show some (mergeValues (mergeValues (.list v1) (.list v2)) (.list vm)) = _
    rw [mergeValues, mergeValues, List.append_assoc]
  unfold resolve
  split
  · next heq => rw [hmd] at heq; cases heq
  · next dp heq =>
      rw [hmd] at heq
      injection heq with heq
      subst heq
      simp only [extractStringList, extractStringGo, extractString, List.isEmpty_cons,
        Bool.false_eq_true, if_false, List.map_cons, List.map_nil, hcol,
        List.foldl_cons, List.foldl_nil]
      split
      · exact hfinal
      · split
        · show lookupA (("name", _) :: _) P = _
          rw [lookupA, if_neg (fun h : "name" = P => hP1 h.symm)]
          exact hfinal
        · exact hfinal

/-- Witness for C1 at a concrete input (the S3 scenario, split into two
defaults). -/
theorem c1_witness :
    lookupA (resolve
      [("d1", ⟨"cc_defaults", [("name", .str "d1"), ("cflags", .list [.str "-a"])]⟩),
       ("d2", ⟨"cc_defaults", [("name", .str "d2"), ("cflags", .list [.str "-b"])]⟩)]
      ⟨"cc_library_static",
        [("name", .str "m"), ("defaults", .list [.str "d1", .str "d2"]),
         ("cflags", .list [.str "-c"])]⟩).properties "cflags" =
      some (.list ([.str "-a"] ++ [.str "-b"] ++ [.str "-c"])) :=
  c1_defaults_list_concat _ _ _ _ "d1" "d2" "cflags" [.str "-a"] [.str "-b"] [.str "-c"]
    (by decide) (by decide) (by decide) rfl rfl rfl rfl rfl rfl rfl rfl

theorem keys_mergeStep (t : List (String × Expression)) (n : String) (v : Expression) :
    (mergeStep t n v).map Prod.fst =
      if n ∈ t.map Prod.fst then t.map Prod.fst else t.map Prod.fst ++ [n] := by
  induction t with
  | nil => simp [mergeStep]
  | cons hd tl ih =>
      obtain ⟨k, w⟩ := hd
      rw [mergeStep]
      by_cases hk : k = n
      · subst hk
        simp
      · rw [if_neg hk]
        simp only [List.map_cons, ih]
        have hnk : ¬ n = k := fun h => hk h.symm
        by_cases hm : n ∈ tl.map Prod.fst
        · simp [hm, hnk]
        · simp [hm, hnk, if_neg hnk]

theorem nodup_keys_mergeStep (t : List (String × Expression)) (n : String) (v : Expression)
    (h : (t.map Prod.fst).Nodup) : ((mergeStep t n v).map Prod.fst).Nodup := by
  rw [keys_mergeStep]
  split
  · exact h
  · next hm =>
      simp [List.nodup_append, h, hm]

theorem nodup_keys_mergeProperties (props : List (String × Expression)) :
    ∀ t, (t.map Prod.fst).Nodup → ((mergeProperties t props).map Prod.fst).Nodup := by
  induction props with
  | nil => intro t ht; exact ht
  | cons p rest ih =>
      intro t ht
      have step : mergeProperties t (p :: rest) =
          mergeProperties (if p.1 = "name" ∨ p.1 = "defaults" then t else mergeStep t p.1 p.2)
            rest := rfl
      rw [step]
      by_cases hnv : p.1 = "name" ∨ p.1 = "defaults"
      · rw [if_pos hnv]
        exact ih t ht
      · rw [if_neg hnv]
        exact ih _ (nodup_keys_mergeStep t p.1 p.2 ht)

theorem nodup_keys_foldMerge (mods : List Module) :
    ∀ t, (t.map Prod.fst).Nodup →
    (((mods.foldl (fun acc dm => mergeProperties acc dm.properties) t).map Prod.fst)).Nodup := by
  induction mods with
  | nil => intro t ht; exact ht
  | cons dm rest ih =>
      intro t ht
      exact ih _ (nodup_keys_mergeProperties dm.properties t ht)

theorem no_name_foldMerge (mods : List Module) :
    ∀ t, (∀ q ∈ t, q.1 ≠ "name") →
    ∀ q ∈ mods.foldl (fun acc dm => mergeProperties acc dm.properties) t, q.1 ≠ "name" := by
  induction mods with
  | nil => intro t ht; exact ht
  | cons dm rest ih =>
      intro t ht
      exact ih _ (mergeProperties_keys_not_name dm.properties t ht)

theorem extractStringGo_map_str (ss : List String) :
    extractStringGo (ss.map .str) = ss := by
  induction ss with
  | nil => rfl
  | cons a l ih => simp [extractStringGo, extractString, ih]

/-- Claim C4: resolving a module that has a `name` property and a
non-empty string-list `defaults` property yields a module whose
property list has pairwise-distinct names and contains the original
module's `name` property. -/
theorem c4_resolve_unique_names (reg : List (String × Module)) (m : Module)
    (nv : Expression) (ss : List String)
    (hname : lookupA m.properties "name" = some nv)
    (hdef : lookupA m.properties "defaults" = some (.list (ss.map .str)))
    (hss : ss ≠ []) :
    ((resolve reg m).properties.map Prod.fst).Nodup ∧
    ("name", nv) ∈ (resolve reg m).properties := by
  unfold resolve
  split
  · next heq => rw [hdef] at heq; cases heq
  · next dp heq =>
      rw [hdef] at heq
      injection heq with heq
      subst heq
      have hie : (extractStringList (.list (ss.map .str))).isEmpty = false := by
        rw [extractStringList, extractStringGo_map_str]
        cases ss with
        | nil => exact absurd rfl hss
        | cons a l => rfl
      rw [if_neg (by rw [hie]; exact Bool.false_ne_true)]
      have hnodup : ∀ st : CState,
          (((st.result.foldl (fun acc dm => mergeProperties acc dm.properties) []).map
            Prod.fst)).Nodup :=
        fun st => nodup_keys_foldMerge st.result [] (by simp)
      have hnoname : ∀ st : CState, ∀ q ∈
          st.result.foldl (fun acc dm => mergeProperties acc dm.properties) [], q.1 ≠ "name" :=
        fun st => no_name_foldMerge st.result [] (by simp)
      set st := collectGo reg ((extractStringList (.list (ss.map .str))).map CItem.visit)
        ⟨[], []⟩ with hst
      set merged := st.result.foldl (fun acc dm => mergeProperties acc dm.properties) []
        with hmerged
      set finalProps :=
        mergeProperties merged (m.properties.filter fun p => p.1 ≠ "defaults") with hfp
      have hfpNodup : (finalProps.map Prod.fst).Nodup :=
        nodup_keys_mergeProperties _ merged (hnodup st)
      have hfpNoname : ∀ q ∈ finalProps, q.1 ≠ "name" :=
        mergeProperties_keys_not_name _ merged (hnoname st)
      have hany : (finalProps.any fun p => p.1 = "name") = false := by
        rw [List.any_eq_false]
        intro q hq
        simpa using hfpNoname q hq
      rw [if_neg (by rw [hany]; exact Bool.false_ne_true)]
      rw [hname]
      constructor
      · simp only [List.map_cons, List.nodup_cons]
        refine ⟨?_, hfpNodup⟩
        intro hmem
        obtain ⟨q, hq, hq1⟩ := List.mem_map.mp hmem
        exact hfpNoname q hq hq1
      · exact List.mem_cons_self _ _

/-- Witness for C4 at a concrete input. -/
theorem c4_witness :
    ((resolve
      [("d1", ⟨"cc_defaults", [("name", .str "d1"), ("cflags", .list [.str "-a"])]⟩)]
      ⟨"cc_library_static",
        [("name", .str "w"), ("defaults", .list [.str "d1"]),
         ("cflags", .list [.str "-c"])]⟩).properties.map Prod.fst).Nodup ∧
    ("name", Expression.str "w") ∈ (resolve
      [("d1", ⟨"cc_defaults", [("name", .str "d1"), ("cflags", .list [.str "-a"])]⟩)]
      ⟨"cc_library_static",
        [("name", .str "w"), ("defaults", .list [.str "d1"]),
         ("cflags", .list [.str "-c"])]⟩).properties :=
  c4_resolve_unique_names _ _ (Expression.str "w") ["d1"] rfl rfl (by decide)

theorem collectGo_emit (reg : List (String × Module)) (dm : Module) (rest : List CItem)
    (st : CState) :
    collectGo reg (.emit dm :: rest) st = collectGo reg rest ⟨st.result ++ [dm], st.visited⟩ := by
  rw [collectGo]

theorem collectGo_visit_skip (reg : List (String × Module)) (n : String) (rest : List CItem)
    (st : CState) (hv : st.visited.contains n = true) :
    collectGo reg (.visit n :: rest) st = collectGo reg rest st := by
  rw [collectGo, dif_pos hv]

theorem collectGo_visit_found (reg : List (String × Module)) (n : String) (dm : Module)
    (rest : List CItem) (st : CState) (nested : List String)
    (hv : st.visited.contains n = false) (hl : lookupA reg n = some dm)
    (hnd : (match lookupA dm.properties "defaults" with
      | some e => extractStringList e
      | none => []) = nested) :
    collectGo reg (.visit n :: rest) st =
      collectGo reg (nested.map CItem.visit ++ CItem.emit dm :: rest)
        ⟨st.result, n :: st.visited⟩ := by
  rw [collectGo, dif_neg (by rw [hv]; exact Bool.false_ne_true)]
  split
  · next heq => rw [hl] at heq; cases heq
  · next dm2 heq =>
      rw [hl] at heq
      injection heq with heq
      subst heq
      rw [hnd]

theorem lookupA_filter_key_none {α : Type} (l : List (String × α)) (k : String) :
    lookupA (l.filter fun p => p.1 ≠ k) k = none := by
  induction l with
  | nil => rfl
  | cons hd tl ih =>
      obtain ⟨n, v⟩ := hd
      rw [List.filter_cons]
      by_cases hk : n = k
      · rw [if_neg (by simp [hk])]
        exact ih
      · rw [if_pos (by simp [hk]), lookupA, if_neg hk]
        exact ih

theorem mergeProperties_filter_defaults (props : List (String × Expression)) :
    ∀ t, mergeProperties t (props.filter fun p => p.1 ≠ "defaults") =
      mergeProperties t props := by
  induction props with
  | nil => intro t; rfl
  | cons p rest ih =>
      intro t
      obtain ⟨n, v⟩ := p
      by_cases hd : n = "defaults"
      · subst hd
        have h1 : ((("defaults", v) :: rest).filter fun p => p.1 ≠ "defaults") =
            rest.filter fun p => p.1 ≠ "defaults" := by simp
        rw [h1, ih t]
        have h2 : mergeProperties t (("defaults", v) :: rest) = mergeProperties t rest := rfl
        rw [h2]
      · have h1 : (((n, v) :: rest).filter fun p => p.1 ≠ "defaults") =
            (n, v) :: rest.filter fun p => p.1 ≠ "defaults" := by simp [hd]
        rw [h1]
        have h2 : ∀ l, mergeProperties t ((n, v) :: l) =
            mergeProperties (if n = "name" ∨ n = "defaults" then t else mergeStep t n v) l :=
          fun l => rfl
        rw [h2, h2, ih]

/-- Claim C5: the defaults resolver terminates on every registry (the
embedding `collectGo` is a total function, its termination measured by
the number of registry keys not yet in the visited set — the same
argument that bounds the Python recursion), and on a two-module cycle
`A → B → A` the result of resolving a module equals the result over
the registry with the back-edge (B's `defaults` property) removed. -/
theorem c5_cycle_backedge (reg reg2 : List (String × Module)) (a b : String)
    (A B M : Module) (da db dm : Expression)
    (hab : a ≠ b)
    (hregA : lookupA reg a = some A) (hregB : lookupA reg b = some B)
    (hregA2 : lookupA reg2 a = some A)
    (hregB2 : lookupA reg2 b =
      some ⟨B.type, B.properties.filter fun p => p.1 ≠ "defaults"⟩)
    (hAd : lookupA A.properties "defaults" = some da) (hda : extractStringList da = [b])
    (hBd : lookupA B.properties "defaults" = some db) (hdb : extractStringList db = [a])
    (hMd : lookupA M.properties "defaults" = some dm) (hdm : extractStringList dm = [a]) :
    resolve reg M = resolve reg2 M := by
  have hcontainsA : (([] : List String).contains a) = false := rfl
  have hcontainsB : (([a] : List String).contains b) = false := by
    simp [List.contains_cons]
    exact fun h => hab h.symm
  have hcontainsA2 : (([b, a] : List String).contains a) = true := by simp
  have hcol1 : collectGo reg [.visit a] ⟨[], []⟩ = ⟨[B, A], [b, a]⟩ := by
    rw [collectGo_visit_found reg a A [] ⟨[], []⟩ [b] hcontainsA hregA (by rw [hAd]; exact hda)]
    rw [show (List.map CItem.visit [b] ++ [CItem.emit A]) =
      [CItem.visit b, CItem.emit A] from rfl]
    rw [collectGo_visit_found reg b B [.emit A] ⟨[], [a]⟩ [a] hcontainsB hregB
      (by rw [hBd]; exact hdb)]
    rw [show (List.map CItem.visit [a] ++ [CItem.emit B, CItem.emit A]) =
      [CItem.visit a, CItem.emit B, CItem.emit A] from rfl]
    rw [collectGo_visit_skip reg a [.emit B, .emit A] ⟨[], [b, a]⟩ hcontainsA2]
    rw [collectGo_emit, collectGo_emit]
    rw [collectGo]
    rfl
  have hcol2 : collectGo reg2 [.visit a] ⟨[], []⟩ =
      ⟨[⟨B.type, B.properties.filter fun p => p.1 ≠ "defaults"⟩, A], [b, a]⟩ := by
    rw [collectGo_visit_found reg2 a A [] ⟨[], []⟩ [b] hcontainsA hregA2 (by rw [hAd]; exact hda)]
    rw [show (List.map CItem.visit [b] ++ [CItem.emit A]) =
      [CItem.visit b, CItem.emit A] from rfl]
    rw [collectGo_visit_found reg2 b
      ⟨B.type, B.properties.filter fun p => p.1 ≠ "defaults"⟩ [.emit A] ⟨[], [a]⟩ []
      hcontainsB hregB2 (by rw [show Module.properties
        ⟨B.type, B.properties.filter fun p => p.1 ≠ "defaults"⟩ =
          B.properties.filter fun p => p.1 ≠ "defaults" from rfl,
        lookupA_filter_key_none])]
    rw [show (List.map CItem.visit [] ++ [CItem.emit
      (⟨B.type, B.properties.filter fun p => p.1 ≠ "defaults"⟩ : Module),
      CItem.emit A]) = [CItem.emit
      (⟨B.type, B.properties.filter fun p => p.1 ≠ "defaults"⟩ : Module),
      CItem.emit A] from rfl]
    rw [collectGo_emit, collectGo_emit]
    rw [collectGo]
    rfl
  unfold resolve
  rw [hMd]
  simp only [hdm, List.isEmpty_cons, Bool.false_eq_true, if_false, List.map_cons,
    List.map_nil, hcol1, hcol2, List.foldl_cons, List.foldl_nil]
  rw [mergeProperties_filter_defaults B.properties]

/-- Witness for C5 at a concrete two-module cycle. -/
theorem c5_witness :
    resolve
      [("a", ⟨"cc_defaults",
        [("name", .str "a"), ("defaults", .list [.str "b"]), ("cflags", .list [.str "-a"])]⟩),
       ("b", ⟨"cc_defaults",
        [("name", .str "b"), ("defaults", .list [.str "a"]), ("cflags", .list [.str "-b"])]⟩)]
      ⟨"cc_library_static", [("name", .str "m"), ("defaults", .list [.str "a"])]⟩ =
    resolve
      [("a", ⟨"cc_defaults",
        [("name", .str "a"), ("defaults", .list [.str "b"]), ("cflags", .list [.str "-a"])]⟩),
       ("b", ⟨"cc_defaults", [("name", .str "b"), ("cflags", .list [.str "-b"])]⟩)]
      ⟨"cc_library_static", [("name", .str "m"), ("defaults", .list [.str "a"])]⟩ :=
  c5_cycle_backedge _ _ "a" "b" _ _ _ (.list [.str "b"]) (.list [.str "a"]) (.list [.str "a"])
    (by decide) rfl rfl rfl rfl rfl rfl rfl rfl rfl rfl

theorem evalPhase_append (fuel : Nat) (vars : List (String × Expression))
    (l1 l2 : List Module) :
    evalPhase fuel vars (l1 ++ l2) =
      ((evalPhase fuel vars l1).1 ++ (evalPhase fuel vars l2).1,
       (evalPhase fuel vars l1).2 ++ (evalPhase fuel vars l2).2) := by
  induction l1 with
  | nil => simp [evalPhase]
  | cons m rest ih =>
      rw [List.cons_append, evalPhase, evalPhase, ih]
      cases evalModule fuel vars m <;> simp

/-- Claim C6: when the evaluator raises `UndefinedVariable` for one
module of a parsed file (that is what "a property value references a
variable with no binding in scope" means operationally: select-guarded
references are deferred, not resolved), `convert_file` appends exactly
one error string for that module, emits no element for it, and
produces the same `elements`, `skipped` and `unsupported` as converting
the file with that module removed. -/
theorem c6_undefined_var_containment (fuel : Nat) (st : ConvState)
    (nm targetArch sourceDir pfx : String) (pre post : List Defn) (M : Module) (v : String)
    (herr : evalModule fuel (addFileVariables st.vars ⟨nm, pre ++ Defn.mod M :: post⟩) M =
      .error (.undefinedVar v)) :
    (convertFile fuel st ⟨nm, pre ++ Defn.mod M :: post⟩ targetArch sourceDir pfx).1.elements =
      (convertFile fuel st ⟨nm, pre ++ post⟩ targetArch sourceDir pfx).1.elements ∧
    (convertFile fuel st ⟨nm, pre ++ Defn.mod M :: post⟩ targetArch sourceDir pfx).1.skipped =
      (convertFile fuel st ⟨nm, pre ++ post⟩ targetArch sourceDir pfx).1.skipped ∧
    (convertFile fuel st ⟨nm, pre ++ Defn.mod M :: post⟩ targetArch sourceDir pfx).1.unsupported =
      (convertFile fuel st ⟨nm, pre ++ post⟩ targetArch sourceDir pfx).1.unsupported ∧
    ∃ l1 l2,
      (convertFile fuel st ⟨nm, pre ++ post⟩ targetArch sourceDir pfx).1.errors = l1 ++ l2 ∧
      (convertFile fuel st ⟨nm, pre ++ Defn.mod M :: post⟩ targetArch sourceDir pfx).1.errors =
        l1 ++ evalErrMsg M (.undefinedVar v) :: l2 := by
  have hvars : addFileVariables st.vars ⟨nm, pre ++ Defn.mod M :: post⟩ =
      addFileVariables st.vars ⟨nm, pre ++ post⟩ := by
    show List.foldl _ st.vars (pre ++ Defn.mod M :: post) =
      List.foldl _ st.vars (pre ++ post)
    rw [List.foldl_append, List.foldl_append, List.foldl_cons]
  have hmods : (⟨nm, pre ++ Defn.mod M :: post⟩ : File).modules =
      (⟨nm, pre⟩ : File).modules ++ M :: (⟨nm, post⟩ : File).modules := by
    show List.filterMap _ (pre ++ Defn.mod M :: post) = _
    rw [List.filterMap_append, List.filterMap_cons]
    rfl
  have hmods2 : (⟨nm, pre ++ post⟩ : File).modules =
      (⟨nm, pre⟩ : File).modules ++ (⟨nm, post⟩ : File).modules := by
    show List.filterMap _ (pre ++ post) = _
    rw [List.filterMap_append]
    rfl
  rw [hvars] at herr
  have hepM : evalPhase fuel (addFileVariables st.vars ⟨nm, pre ++ post⟩)
      (M :: (⟨nm, post⟩ : File).modules) =
      ((evalPhase fuel (addFileVariables st.vars ⟨nm, pre ++ post⟩)
          (⟨nm, post⟩ : File).modules).1,
       evalErrMsg M (.undefinedVar v) ::
         (evalPhase fuel (addFileVariables st.vars ⟨nm, pre ++ post⟩)
           (⟨nm, post⟩ : File).modules).2) := by
    rw [evalPhase, herr]
  simp only [convertFile, hvars, hmods, hmods2, evalPhase_append, hepM]
  refine ⟨trivial, trivial, trivial, ?_⟩
  simp only [List.append_assoc, List.cons_append]
  exact ⟨_, _, rfl, rfl⟩

/-- Witness for C6 at a concrete input: a file with one failing module
(an unbound variable in `srcs`) followed by one convertible module. -/
theorem c6_witness :
    (convertFile 5 ⟨[], []⟩ ⟨"f", [] ++ Defn.mod
        ⟨"cc_library_static", [("name", .str "bad"), ("srcs", .var "undef")]⟩ ::
        [Defn.mod ⟨"cc_library_static", [("name", .str "k"), ("srcs", .list [.str "k.c"])]⟩]⟩
      "x86_64" "" "").1.elements =
      (convertFile 5 ⟨[], []⟩ ⟨"f", [] ++
        [Defn.mod ⟨"cc_library_static", [("name", .str "k"), ("srcs", .list [.str "k.c"])]⟩]⟩
      "x86_64" "" "").1.elements ∧
    (convertFile 5 ⟨[], []⟩ ⟨"f", [] ++ Defn.mod
        ⟨"cc_library_static", [("name", .str "bad"), ("srcs", .var "undef")]⟩ ::
        [Defn.mod ⟨"cc_library_static", [("name", .str "k"), ("srcs", .list [.str "k.c"])]⟩]⟩
      "x86_64" "" "").1.skipped =
      (convertFile 5 ⟨[], []⟩ ⟨"f", [] ++
        [Defn.mod ⟨"cc_library_static", [("name", .str "k"), ("srcs", .list [.str "k.c"])]⟩]⟩
      "x86_64" "" "").1.skipped ∧
    (convertFile 5 ⟨[], []⟩ ⟨"f", [] ++ Defn.mod
        ⟨"cc_library_static", [("name", .str "bad"), ("srcs", .var "undef")]⟩ ::
        [Defn.mod ⟨"cc_library_static", [("name", .str "k"), ("srcs", .list [.str "k.c"])]⟩]⟩
      "x86_64" "" "").1.unsupported =
      (convertFile 5 ⟨[], []⟩ ⟨"f", [] ++
        [Defn.mod ⟨"cc_library_static", [("name", .str "k"), ("srcs", .list [.str "k.c"])]⟩]⟩
      "x86_64" "" "").1.unsupported ∧
    ∃ l1 l2,
      (convertFile 5 ⟨[], []⟩ ⟨"f", [] ++
        [Defn.mod ⟨"cc_library_static", [("name", .str "k"), ("srcs", .list [.str "k.c"])]⟩]⟩
      "x86_64" "" "").1.errors = l1 ++ l2 ∧
      (convertFile 5 ⟨[], []⟩ ⟨"f", [] ++ Defn.mod
        ⟨"cc_library_static", [("name", .str "bad"), ("srcs", .var "undef")]⟩ ::
        [Defn.mod ⟨"cc_library_static", [("name", .str "k"), ("srcs", .list [.str "k.c"])]⟩]⟩
      "x86_64" "" "").1.errors =
        l1 ++ evalErrMsg ⟨"cc_library_static", [("name", .str "bad"), ("srcs", .var "undef")]⟩
          (.undefinedVar "undef") :: l2 :=
  c6_undefined_var_containment 5 ⟨[], []⟩ "f" "x86_64" "" "" []
    [Defn.mod ⟨"cc_library_static", [("name", .str "k"), ("srcs", .list [.str "k.c"])]⟩]
    ⟨"cc_library_static", [("name", .str "bad"), ("srcs", .var "undef")]⟩ "undef" rfl

/-- Claim C3, counterexample: a `Converter` that has already converted
a file `G` (here: one binding `x = []`) converts `F` (a module whose
`srcs` references `x`) differently from a fresh `Converter`: fresh
conversion reports an undefined-variable error and emits nothing,
while the used converter resolves `x` from the previous file's scope
and emits an element.  The evaluator scope and defaults registry are
converter state, not per-file state. -/
theorem c3_counterexample :
    ((convertFile 5
        (convertFile 5 ⟨[], []⟩ ⟨"g", [.assignment ⟨"x", .list [], "="⟩]⟩ "x86_64" "" "").2
        ⟨"f", [.mod ⟨"cc_library_static", [("name", .str "m"), ("srcs", .var "x")]⟩]⟩
        "x86_64" "" "").1 ≠
      (convertFile 5 ⟨[], []⟩
        ⟨"f", [.mod ⟨"cc_library_static", [("name", .str "m"), ("srcs", .var "x")]⟩]⟩
        "x86_64" "" "").1) ∧
    (convertFile 5 ⟨[], []⟩
      ⟨"f", [.mod ⟨"cc_library_static", [("name", .str "m"), ("srcs", .var "x")]⟩]⟩
      "x86_64" "" "").1.errors =
      ["Evaluation error for cc_library_static \x27m\x27: Undefined variable: x"] ∧
    (convertFile 5
      (convertFile 5 ⟨[], []⟩ ⟨"g", [.assignment ⟨"x", .list [], "="⟩]⟩ "x86_64" "" "").2
      ⟨"f", [.mod ⟨"cc_library_static", [("name", .str "m"), ("srcs", .var "x")]⟩]⟩
      "x86_64" "" "").1.errors = [] := by
  refine ⟨by decide, by decide, by decide⟩

theorem addFileVariables_no_assign (vars : List (String × Expression)) (nm : String)
    (defs : List Defn) (h : ∀ d ∈ defs, ∃ m, d = Defn.mod m) :
    addFileVariables vars ⟨nm, defs⟩ = vars := by
  induction defs generalizing vars with
  | nil => rfl
  | cons d rest ih =>
      obtain ⟨m, hm⟩ := h d (List.mem_cons_self _ _)
      subst hm
      show addFileVariables vars ⟨nm, rest⟩ = vars
      exact ih vars (fun d hd => h d (List.mem_cons_of_mem _ hd))

theorem evalPhase_types (fuel : Nat) (vars : List (String × Expression))
    (mods : List Module) :
    ∀ m2 ∈ (evalPhase fuel vars mods).1, ∃ m ∈ mods, m2.type = m.type := by
  induction mods with
  | nil => intro m2 hm2; cases hm2
  | cons m rest ih =>
      intro m2 hm2
      rw [evalPhase] at hm2
      revert hm2
      cases he : evalModule fuel vars m with
      | error e =>
          intro hm2
          obtain ⟨m0, hm0, ht⟩ := ih m2 hm2
          exact ⟨m0, List.mem_cons_of_mem _ hm0, ht⟩
      | ok m1 =>
          intro hm2
          rcases List.mem_cons.mp hm2 with h | h
          · refine ⟨m, List.mem_cons_self _ _, ?_⟩
            rw [h]
            unfold evalModule at he
            revert he
            cases mapExcept (fun p => (eval fuel vars p.2).map fun v => (p.1, v)) m.properties
            · intro he; cases he
            · intro he
              injection he with he
              rw [← he]
          · obtain ⟨m0, hm0, ht⟩ := ih m2 h
            exact ⟨m0, List.mem_cons_of_mem _ hm0, ht⟩

theorem registerDefaults_no_defaults (reg : List (String × Module)) (mods : List Module)
    (h : ∀ m ∈ mods, m.type ≠ "cc_defaults") :
    registerDefaults reg mods = reg := by
  induction mods generalizing reg with
  | nil => rfl
  | cons m rest ih =>
      show List.foldl _ _ (m :: rest) = reg
      rw [List.foldl_cons]
      have hm : m.type ≠ "cc_defaults" := h m (List.mem_cons_self _ _)
      simp only [if_neg hm]
      exact ih reg (fun m2 hm2 => h m2 (List.mem_cons_of_mem _ hm2))

/-- Claim C3, amended: the evaluator scope and the defaults registry
persist across `convert_file` calls on the same `Converter`, so the
claim holds only when the previously-converted file introduces no
state: if `G` contains no assignments and no `cc_defaults` modules,
converting `G` leaves the converter state unchanged and a subsequent
conversion of `F` equals a fresh conversion of `F`. -/
theorem c3_stateless_without_defs (fuel : Nat) (st : ConvState) (F : File)
    (nm : String) (gdefs : List Defn)
    (aG sG pG aF sF pF : String)
    (hassign : ∀ d ∈ gdefs, ∃ m, d = Defn.mod m)
    (hdef : ∀ m ∈ (⟨nm, gdefs⟩ : File).modules, m.type ≠ "cc_defaults") :
    (convertFile fuel st ⟨nm, gdefs⟩ aG sG pG).2 = st ∧
    (convertFile fuel ((convertFile fuel st ⟨nm, gdefs⟩ aG sG pG).2) F aF sF pF).1 =
      (convertFile fuel st F aF sF pF).1 := by
  have hvars : addFileVariables st.vars ⟨nm, gdefs⟩ = st.vars :=
    addFileVariables_no_assign st.vars nm gdefs hassign
  have hreg : registerDefaults st.registry
      (evalPhase fuel st.vars (⟨nm, gdefs⟩ : File).modules).1 = st.registry := by
    apply registerDefaults_no_defaults
    intro m2 hm2
    obtain ⟨m0, hm0, ht⟩ := evalPhase_types _ _ _ m2 hm2
    rw [ht]
    exact hdef m0 hm0
  have hst : (convertFile fuel st ⟨nm, gdefs⟩ aG sG pG).2 = st := by
    show ConvState.mk (addFileVariables st.vars ⟨nm, gdefs⟩) _ = st
    rw [hvars, hreg]
  exact ⟨hst, by rw [hst]⟩

/-- Witness for the amended C3 at a concrete input. -/
theorem c3_witness :
    (convertFile 5 ⟨[], []⟩
      ⟨"g", [.mod ⟨"cc_binary", [("name", .str "g1"), ("srcs", .list [.str "g.c"])]⟩]⟩
      "x86_64" "" "").2 = ⟨[], []⟩ ∧
    (convertFile 5
      ((convertFile 5 ⟨[], []⟩
        ⟨"g", [.mod ⟨"cc_binary", [("name", .str "g1"), ("srcs", .list [.str "g.c"])]⟩]⟩
        "x86_64" "" "").2)
      ⟨"f", [.mod ⟨"cc_library_static", [("name", .str "m"), ("srcs", .list [.str "m.c"])]⟩]⟩
      "arm64" "/src" "ext").1 =
    (convertFile 5 ⟨[], []⟩
      ⟨"f", [.mod ⟨"cc_library_static", [("name", .str "m"), ("srcs", .list [.str "m.c"])]⟩]⟩
      "arm64" "/src" "ext").1 :=
  c3_stateless_without_defs 5 ⟨[], []⟩
    ⟨"f", [.mod ⟨"cc_library_static", [("name", .str "m"), ("srcs", .list [.str "m.c"])]⟩]⟩
    "g" [.mod ⟨"cc_binary", [("name", .str "g1"), ("srcs", .list [.str "g.c"])]⟩]
    "x86_64" "" "" "arm64" "/src" "ext"
    (by intro d hd; simp at hd; exact ⟨_, hd⟩)
    (by intro m hm; simp [File.modules] at hm; rw [hm]; decide)

theorem readIdentGo_spec (l : List Char) :
    ∀ line col, (readIdentGo l line col).1 = l.takeWhile identCont ∧
      (readIdentGo l line col).2.rest = l.dropWhile identCont := by
  induction l with
  | nil => intro line col; exact ⟨rfl, rfl⟩
  | cons c rs ih =>
      intro line col
      rw [readIdentGo]
      by_cases hc : identCont c = true
      · rw [if_pos hc, List.takeWhile_cons_of_pos hc, List.dropWhile_cons_of_pos hc]
        exact ⟨congrArg (c :: ·) (ih _ _).1, (ih _ _).2⟩
      · rw [if_neg hc, List.takeWhile_cons_of_neg (by simpa using hc),
          List.dropWhile_cons_of_neg (by simpa using hc)]
        exact ⟨rfl, rfl⟩

theorem dropWhile_head_not {p : Char → Bool} (l : List Char) :
    ∀ d, (l.dropWhile p).head? = some d → p d = false := by
  induction l with
  | nil => intro d h; cases h
  | cons c rs ih =>
      intro d h
      by_cases hc : p c = true
      · rw [List.dropWhile_cons_of_pos hc] at h
        exact ih d h
      · rw [List.dropWhile_cons_of_neg (by simpa using hc)] at h
        injection h with h
        subst h
        simpa using hc

/-- After whitespace/comment skipping, a character satisfying the
implementation's identifier-start test (`isalpha() or "_"`, modelled
by `pyIsAlpha`) yields an IDENT token that is exactly the maximal run
of identifier-continuation characters (`isalnum() or "_"`), carrying
the position where it started, the following character (if any) not
being a continuation character. -/
theorem nextToken_ident_maximal (st : LexState) (c : Char) (rest2 : List Char)
    (hrest : (skipWs st).rest = c :: rest2)
    (hc : pyIsAlpha c = true ∨ c = '_') :
    ∃ chars st2,
      nextToken st =
        .ok (⟨.ident (String.mk chars), (skipWs st).line, (skipWs st).col⟩, st2) ∧
      chars = (c :: rest2).takeWhile identCont ∧
      chars.head? = some c ∧
      (∀ ch ∈ chars, identCont ch = true) ∧
      st2.rest = (c :: rest2).dropWhile identCont ∧
      (∀ d, st2.rest.head? = some d → identCont d = false) := by
  have hcont : identCont c = true := by
    rcases hc with h | h
    · simp [identCont, pyIsAlnum, h]
    · simp [identCont, h]
  have hq : ¬ (c = '\x22') := by
    intro hh
    subst hh
    rcases hc with h | h
    · exact absurd h (by decide)
    · exact absurd h (by decide)
  refine ⟨(c :: rest2).takeWhile identCont,
    (readIdentGo ((skipWs st).rest) (skipWs st).line (skipWs st).col).2,
    ?_, rfl, ?_, ?_, ?_, ?_⟩
  · rw [nextToken, hrest]
    simp only [if_neg hq, if_pos hc]
    rw [(readIdentGo_spec (c :: rest2) (skipWs st).line (skipWs st).col).1]
  · rw [List.takeWhile_cons_of_pos hcont]
    rfl
  · intro ch hch
    exact List.mem_takeWhile_imp hch
  · rw [hrest, (readIdentGo_spec _ _ _).2]
  · intro d hd
    rw [hrest, (readIdentGo_spec _ _ _).2] at hd
    exact dropWhile_head_not _ d hd

/-- After whitespace/comment skipping, a character that satisfies none
of the dispatch tests of `next_token` (quote, `isalpha()`/underscore,
`isdigit()`/sign-digit, one of the punctuation bytes) yields a lex
error carrying that character's line and column. -/
theorem nextToken_unexpected_error (st : LexState) (c : Char) (rest2 : List Char)
    (hrest : (skipWs st).rest = c :: rest2)
    (hq : c ≠ '\x22')
    (halpha : pyIsAlpha c = false) (hund : c ≠ '_')
    (hdig : pyIsDigit c = false)
    (hminus : ¬(c = '-' ∧ (rest2.head?.map pyIsDigit).getD false = true))
    (hpunct : c ∉ ['\x7b', '\x7d', '[', ']', '(', ')', ':', ',', '+', '=']) :
    nextToken st = .error (.unexpectedChar c (skipWs st).line (skipWs st).col) := by
  have h2 : ¬ (pyIsAlpha c = true ∨ c = '_') := by
    rw [halpha]
    simp [hund]
  have h3 : ¬ (pyIsDigit c = true ∨ (c = '-' ∧ (rest2.head?.map pyIsDigit).getD false = true)) := by
    rw [hdig]
    simp only [Bool.false_eq_true, false_or]
    exact hminus
  have hne : ∀ x, x ∈ ['\x7b', '\x7d', '[', ']', '(', ')', ':', ',', '+', '='] → ¬ c = x :=
    fun x hx hcx => hpunct (hcx ▸ hx)
  rw [nextToken, hrest]
  simp only [if_neg hq, if_neg h2, if_neg h3,
    if_neg (hne '\x7b' (by decide)), if_neg (hne '\x7d' (by decide)),
    if_neg (hne '[' (by decide)), if_neg (hne ']' (by decide)),
    if_neg (hne '(' (by decide)), if_neg (hne ')' (by decide)),
    if_neg (hne ':' (by decide)), if_neg (hne ',' (by decide)),
    if_neg (hne '+' (by decide)), if_neg (hne '=' (by decide))]

/-- Below U+0080 the modelled Python character classes coincide with
the ASCII classes of the regex `[A-Za-z_][A-Za-z0-9_]*`: the
implementation and the claim can only disagree on non-ASCII input. -/
theorem pyClasses_ascii (c : Char) (h : c.toNat < 128) :
    pyIsAlpha c = c.isAlpha ∧ pyIsDigit c = c.isDigit ∧
      pyIsAlnum c = (c.isAlpha || c.isDigit) := by
  have h1 : pyIsAlphaExtra c.toNat = false := by
    simp only [pyIsAlphaExtra, Bool.or_eq_false_iff, Bool.and_eq_false_iff,
      beq_eq_false_iff_ne, ne_eq, decide_eq_false_iff_not, not_le]
    omega
  have h2 : pyIsDigitExtra c.toNat = false := by
    simp only [pyIsDigitExtra, Bool.or_eq_false_iff, beq_eq_false_iff_ne, ne_eq]
    omega
  have h3 : (c.toNat == 0xBC || c.toNat == 0xBD || c.toNat == 0xBE) = false := by
    simp only [Bool.or_eq_false_iff, beq_eq_false_iff_ne, ne_eq]
    omega
  refine ⟨by simp [pyIsAlpha, h1], by simp [pyIsDigit, h2], ?_⟩
  simp [pyIsAlnum, pyIsAlpha, pyIsDigit, h1, h2, h3]

/-- Claim C9: the claim — matching `Lexer._read_ident`'s own
docstring `[a-zA-Z_][a-zA-Z0-9_]*` — states that identifiers are
exactly the maximal matches of that ASCII regex, and that every byte
that can begin no token of the grammar raises a lex error carrying its
line and column.  The implementation instead dispatches on Python's
Unicode-aware `str.isalpha`/`str.isalnum`.  On the one-character input
`é` (U+00E9) — not an ASCII letter, not an underscore, not a digit,
not a quote, sign, whitespace, comment start or punctuation byte, so
under the claim it can begin no token and must raise a `ParseError` at
line 1, column 1 — `next_token` instead returns the token IDENT
`é` and raises no error, because `str.isalpha` is true on U+00E9. -/
theorem c9_unicode_ident_bug :
    nextToken ⟨['é'], 1, 1⟩ = .ok (⟨.ident "é", 1, 1⟩, ⟨[], 1, 2⟩) ∧
    (('é' : Char).isAlpha = false ∧ ('é' : Char).isDigit = false ∧
      ('é' : Char) ≠ '_' ∧
      ('é' : Char) ∉
        ['\x22', '-', '\x7b', '\x7d', '[', ']', '(', ')', ':', ',', '+', '=',
         ' ', '\t', '\r', '\n', '/'] ∧
      pyIsAlpha 'é' = true) := by
  constructor
  · have hskip : skipWs ⟨['é'], 1, 1⟩ = ⟨['é'], 1, 1⟩ := by
      simp [skipWs, skipWsGo]
    rw [nextToken, hskip]
    rfl
  · decide

end Bp2bst
